import Mathlib

/-!
Shallow embedding of the core of the vlk-ray-tracer repository
(src/mesh.rs, src/scene.rs, src/shader_buffer.rs), together with proofs
settling the frozen claims about its BVH builder and GPU scene serializer.

Numeric model: Rust `f32` values are idealized as exact rationals extended
with the IEEE special values +inf, -inf and NaN.  Arithmetic is exact except
that any finite result whose magnitude exceeds f32::MAX overflows to a
signed infinity (this clamping is what makes `f32::MAX + f32::MAX`
non-finite, which the splitting guards of `Bvh::build_impl` rely on).
Division by zero and the other special-value rules follow IEEE 754.
Square roots are exact on perfect squares (all concrete inputs used below);
no claim constrains the value of a square root elsewhere.
-/

namespace VlkRt

/-- Exact rational numbers, represented as a gcd-reduced fraction with a
positive denominator.  (A bespoke type rather than Mathlib's ℚ so that all
arithmetic reduces under `decide`.)  Every operation normalizes, so
structural equality of results coincides with value equality. -/
structure Q where
  num : ℤ
  den : ℕ
deriving DecidableEq

/-- Normalize a fraction (the denominator argument is never 0 here). -/
def Q.mk' (n : ℤ) (d : ℕ) : Q :=
  let g := Nat.gcd n.natAbs d
  ⟨n / (g : ℤ), d / g⟩

def Q.ofInt (n : ℤ) : Q := ⟨n, 1⟩

def Q.zero : Q := ⟨0, 1⟩

def Q.neg (a : Q) : Q := ⟨-a.num, a.den⟩

def Q.add (a b : Q) : Q := Q.mk' (a.num * b.den + b.num * a.den) (a.den * b.den)

def Q.sub (a b : Q) : Q := Q.mk' (a.num * b.den - b.num * a.den) (a.den * b.den)

def Q.mul (a b : Q) : Q := Q.mk' (a.num * b.num) (a.den * b.den)

/-- Division; only ever called with a divisor of nonzero value. -/
def Q.div (a b : Q) : Q :=
  if 0 ≤ b.num then Q.mk' (a.num * b.den) (a.den * b.num.toNat)
  else Q.mk' (-(a.num * b.den)) (a.den * (-b.num).toNat)

/-- Strict order by cross-multiplication. -/
def Q.blt (a b : Q) : Bool := decide (a.num * b.den < b.num * a.den)

def Q.ble (a b : Q) : Bool := decide (a.num * b.den ≤ b.num * a.den)

/-- f32::MAX as an exact rational: (2^24 - 1) * 2^104. -/
def fMAXQ : Q := ⟨(2 ^ 24 - 1) * 2 ^ 104, 1⟩

/-- Idealized f32: exact rational, or an IEEE special value. -/
inductive F where
  | nan
  | pinf
  | ninf
  | fin (q : Q)
deriving DecidableEq

def F.ofInt (n : ℤ) : F := .fin (Q.ofInt n)

/-- Overflow clamping of an exact result to the f32 range. -/
def F.clamp (q : Q) : F :=
  if Q.blt fMAXQ q then .pinf else if Q.blt q (Q.neg fMAXQ) then .ninf else .fin q

def F.add : F → F → F
  | .nan, _ => .nan
  | _, .nan => .nan
  | .pinf, .ninf => .nan
  | .ninf, .pinf => .nan
  | .pinf, _ => .pinf
  | _, .pinf => .pinf
  | .ninf, _ => .ninf
  | _, .ninf => .ninf
  | .fin a, .fin b => F.clamp (Q.add a b)

def F.sub : F → F → F
  | .nan, _ => .nan
  | _, .nan => .nan
  | .pinf, .pinf => .nan
  | .ninf, .ninf => .nan
  | .pinf, _ => .pinf
  | .ninf, _ => .ninf
  | _, .pinf => .ninf
  | _, .ninf => .pinf
  | .fin a, .fin b => F.clamp (Q.sub a b)

def F.mul : F → F → F
  | .nan, _ => .nan
  | _, .nan => .nan
  | .pinf, .pinf => .pinf
  | .pinf, .ninf => .ninf
  | .ninf, .pinf => .ninf
  | .ninf, .ninf => .pinf
  | .pinf, .fin b => if 0 < b.num then .pinf else if b.num < 0 then .ninf else .nan
  | .fin a, .pinf => if 0 < a.num then .pinf else if a.num < 0 then .ninf else .nan
  | .ninf, .fin b => if 0 < b.num then .ninf else if b.num < 0 then .pinf else .nan
  | .fin a, .ninf => if 0 < a.num then .ninf else if a.num < 0 then .pinf else .nan
  | .fin a, .fin b => F.clamp (Q.mul a b)

def F.div : F → F → F
  | .nan, _ => .nan
  | _, .nan => .nan
  | .pinf, .pinf => .nan
  | .pinf, .ninf => .nan
  | .ninf, .pinf => .nan
  | .ninf, .ninf => .nan
  | .pinf, .fin b => if b.num < 0 then .ninf else .pinf
  | .ninf, .fin b => if b.num < 0 then .pinf else .ninf
  | .fin _, .pinf => .fin Q.zero
  | .fin _, .ninf => .fin Q.zero
  | .fin a, .fin b =>
      if b.num = 0 then (if a.num = 0 then .nan else if 0 < a.num then .pinf else .ninf)
      else F.clamp (Q.div a b)

/-- IEEE strict less-than; any comparison with NaN is false. -/
def F.lt : F → F → Bool
  | .nan, _ => false
  | _, .nan => false
  | .ninf, .ninf => false
  | .ninf, _ => true
  | _, .ninf => false
  | .pinf, _ => false
  | _, .pinf => true
  | .fin a, .fin b => Q.blt a b

def F.le : F → F → Bool
  | .nan, _ => false
  | _, .nan => false
  | .ninf, _ => true
  | _, .ninf => false
  | _, .pinf => true
  | .pinf, _ => false
  | .fin a, .fin b => Q.ble a b

def F.isFinite : F → Bool
  | .fin _ => true
  | _ => false

/-- Rust f32::min: if one argument is NaN the other is returned. -/
def F.fmin (a b : F) : F :=
  if a = .nan then b else if b = .nan then a else if F.lt a b then a else b

/-- Rust f32::max: if one argument is NaN the other is returned. -/
def F.fmax (a b : F) : F :=
  if a = .nan then b else if b = .nan then a else if F.lt a b then b else a

/-- Floor square root by linear scan (kernel-reducible). -/
def natSqrt (n : ℕ) : ℕ :=
  (List.range (n + 1)).foldl (fun acc k => if k * k ≤ n then k else acc) 0

/-- Rational square root, exact on rationals whose numerator and denominator
are perfect squares (true of every concrete input below); best-effort
elsewhere, where no claim constrains it. -/
def ratSqrt (q : Q) : Q :=
  ⟨natSqrt q.num.toNat, natSqrt q.den⟩

def F.sqrt : F → F
  | .nan => .nan
  | .ninf => .nan
  | .pinf => .pinf
  | .fin q => if q.num < 0 then .nan else .fin (ratSqrt q)

/-- glam Vec3 over the idealized scalar. -/
structure Vec3 where
  x : F
  y : F
  z : F
deriving DecidableEq

def Vec3.zero : Vec3 := ⟨.fin Q.zero, .fin Q.zero, .fin Q.zero⟩

/-- glam Vec3::MAX (all components f32::MAX). -/
def Vec3.MAXC : Vec3 := ⟨.fin fMAXQ, .fin fMAXQ, .fin fMAXQ⟩

/-- glam Vec3::MIN (all components f32::MIN = -f32::MAX). -/
def Vec3.MINC : Vec3 := ⟨.fin (Q.neg fMAXQ), .fin (Q.neg fMAXQ), .fin (Q.neg fMAXQ)⟩

def Vec3.addV (a b : Vec3) : Vec3 := ⟨F.add a.x b.x, F.add a.y b.y, F.add a.z b.z⟩
def Vec3.subV (a b : Vec3) : Vec3 := ⟨F.sub a.x b.x, F.sub a.y b.y, F.sub a.z b.z⟩
def Vec3.minV (a b : Vec3) : Vec3 := ⟨F.fmin a.x b.x, F.fmin a.y b.y, F.fmin a.z b.z⟩
def Vec3.maxV (a b : Vec3) : Vec3 := ⟨F.fmax a.x b.x, F.fmax a.y b.y, F.fmax a.z b.z⟩
def Vec3.mulS (a : Vec3) (s : F) : Vec3 := ⟨F.mul a.x s, F.mul a.y s, F.mul a.z s⟩

def Vec3.cross (a b : Vec3) : Vec3 :=
  ⟨F.sub (F.mul a.y b.z) (F.mul a.z b.y),
   F.sub (F.mul a.z b.x) (F.mul a.x b.z),
   F.sub (F.mul a.x b.y) (F.mul a.y b.x)⟩

def Vec3.dot (a b : Vec3) : F :=
  F.add (F.add (F.mul a.x b.x) (F.mul a.y b.y)) (F.mul a.z b.z)

def Vec3.length (a : Vec3) : F := F.sqrt (a.dot a)

/-- Component access `v[axis]` (axes 0, 1, 2 as used by the source). -/
def Vec3.idx (v : Vec3) : ℕ → F
  | 0 => v.x
  | 1 => v.y
  | _ => v.z

structure Vec2 where
  x : F
  y : F
deriving DecidableEq

def Vec2.zero : Vec2 := ⟨.fin Q.zero, .fin Q.zero⟩

/-! ## mesh.rs: the mesh / BVH data model -/

/-- A triangle: three indices into the vertex array (`[usize; 3]`). -/
abbrev Tri : Type := ℕ × ℕ × ℕ

/-- Leaf node payload of the BVH (`BvhLeaf`); `begin`/`end` are reserved, so
the fields are named `tbegin`/`tend`. -/
structure BvhLeaf where
  tbegin : ℕ
  tend : ℕ
  cost : F
deriving DecidableEq

/-- `Bvh` together with its `BvhContent`: the Rust struct {min, max, content}
with content either an interior node (two children) or a leaf, flattened
into one inductive carrying the bounds on each constructor. -/
inductive Bvh where
  | node (bmin bmax : Vec3) (fst snd : Bvh)
  | leaf (bmin bmax : Vec3) (lf : BvhLeaf)
deriving DecidableEq

def Bvh.min : Bvh → Vec3
  | .node m _ _ _ => m
  | .leaf m _ _ => m

def Bvh.max : Bvh → Vec3
  | .node _ m _ _ => m
  | .leaf _ m _ => m

/-- `Mesh` from mesh.rs. -/
structure Mesh where
  bvh : Option Bvh
  tris : List Tri
  verts : List Vec3
  normals : Option (List Vec3)
  vert_cols : Option (List Vec3)
  vert_uv : Option (List Vec2)

/-- `BvhTriAux`: per-triangle auxiliary data used while building the BVH. -/
structure BvhTriAux where
  min : Vec3
  max : Vec3
  center : Vec3
  area : F
deriving DecidableEq

def dAux : BvhTriAux := ⟨Vec3.zero, Vec3.zero, Vec3.zero, .fin Q.zero⟩

def MAX_DEPTH : ℕ := 32
def MIN_TRI : ℕ := 2
def MAX_SLICES : ℕ := 5

/-- The Rust slice `aux[tb..te]`. -/
def sliceSeg (aux : List BvhTriAux) (tb te : ℕ) : List BvhTriAux :=
  (aux.drop tb).take (te - tb)

/-- `Bvh::calc_bounds`: [min, max] bounds for a range of triangles. -/
def Bvh.calc_bounds (aux : List BvhTriAux) (tb te : ℕ) : Vec3 × Vec3 :=
  ((sliceSeg aux tb te).map (fun f => (f.min, f.max))).foldl
    (fun pa pb => (pa.1.minV pb.1, pa.2.maxV pb.2)) (Vec3.MAXC, Vec3.MINC)

/-- `Bvh::eval_sah`: surface area heuristic at a single point. -/
def Bvh.eval_sah (aux : List BvhTriAux) (axis : ℕ) (pos : F) (before : Bool) : F :=
  let st := aux.foldl
    (fun (st : Vec3 × Vec3 × F) tri =>
      if (F.lt (tri.center.idx axis) pos) = before then
        (st.1.minV tri.min, st.2.1.maxV tri.max, F.add st.2.2 tri.area)
      else st)
    (Vec3.MAXC, Vec3.MINC, F.fin Q.zero)
  let box_size := st.2.1.subV st.1
  let box_area :=
    F.mul (F.ofInt 2)
      (F.add (F.mul box_size.x (F.add box_size.y box_size.z)) (F.mul box_size.y box_size.z))
  F.div box_area st.2.2

/-- The candidate split positions computed inside `Bvh::eval_axis`
(lines 63–75 of mesh.rs): triangle centers when the range is small,
otherwise `(f + 0.5) * scale` for f < MAX_SLICES with
`scale = (self.max - self.min)[axis] / MAX_SLICES`. -/
def Bvh.slice_points (self : Bvh) (aux : List BvhTriAux) (axis : ℕ) : List F :=
  match self with
  | .leaf bmin bmax range =>
      if range.tend - range.tbegin ≤ MAX_SLICES then
        (sliceSeg aux range.tbegin range.tend).map (fun f => f.center.idx axis)
      else
        let scale := F.div ((bmax.subV bmin).idx axis) (F.ofInt (MAX_SLICES : ℤ))
        (List.range MAX_SLICES).map
          (fun f => F.mul (F.add (F.ofInt (f : ℤ)) (F.fin ⟨1, 2⟩)) scale)
  | _ => []

/-- `Bvh::eval_axis`: heuristic cost for splitting along an axis.  Returns
(best position, cost before, cost after); on a non-leaf (a panic in the
source, never reached under the builder) it returns the initial best. -/
def Bvh.eval_axis (self : Bvh) (aux : List BvhTriAux) (axis : ℕ) : F × F × F :=
  match self with
  | .leaf _ _ range =>
      let pts := self.slice_points aux axis
      let slice := sliceSeg aux range.tbegin range.tend
      pts.foldl
        (fun best point =>
          let cost0 := Bvh.eval_sah slice axis point true
          let cost1 := Bvh.eval_sah slice axis point false
          if F.lt (F.add cost0 cost1) (F.add best.2.1 best.2.2) then (point, cost0, cost1)
          else best)
        (F.fin Q.zero, F.fin fMAXQ, F.fin fMAXQ)
  | _ => (F.fin Q.zero, F.fin fMAXQ, F.fin fMAXQ)

/-- Swap two positions of a list (no-op when an index is out of range,
which never happens in the verified paths). -/
def listSwap {α : Type} (l : List α) (i j : ℕ) : List α :=
  match l.get? i, l.get? j with
  | some a, some b => (l.set i b).set j a
  | _, _ => l

/-- One iteration of the partition loop of `Bvh::try_split`
(mesh.rs lines 104–115); the state is (tris, aux, midpoint). -/
def split_step (axis : ℕ) (pos : F)
    (st : List Tri × List BvhTriAux × Option ℕ) (i : ℕ) :
    List Tri × List BvhTriAux × Option ℕ :=
  if F.lt pos (((st.2.1.getD i dAux).center).idx axis) then
    match st.2.2 with
    | none => (st.1, st.2.1, some i)
    | some p => (st.1, st.2.1, some p)
  else
    match st.2.2 with
    | some p => (listSwap st.1 p i, listSwap st.2.1 p i, some (p + 1))
    | none => (st.1, st.2.1, none)

/-- The partition loop of `Bvh::try_split`: `for i in tb..te` folding
`split_step` from midpoint = None. -/
def split_loop (axis : ℕ) (pos : F) (tris : List Tri) (aux : List BvhTriAux)
    (tb te : ℕ) : List Tri × List BvhTriAux × Option ℕ :=
  (List.range' tb (te - tb)).foldl (split_step axis pos) (tris, aux, none)

/-- `Bvh::try_split`: split a leaf along an axis; returns the (possibly
replaced) node, the updated triangle and aux arrays, and the Rust return
value. -/
def Bvh.try_split (self : Bvh) (tris : List Tri) (aux : List BvhTriAux)
    (axis : ℕ) (pos : F) (cost : F × F) : Bvh × List Tri × List BvhTriAux × Bool :=
  match self with
  | .leaf bmin bmax data =>
      let r := split_loop axis pos tris aux data.tbegin data.tend
      match r.2.2 with
      | none => (.leaf bmin bmax data, r.1, r.2.1, false)
      | some m =>
          let b1 := Bvh.calc_bounds r.2.1 data.tbegin m
          let b2 := Bvh.calc_bounds r.2.1 m data.tend
          (.node bmin bmax
            (.leaf b1.1 b1.2 ⟨data.tbegin, m, cost.1⟩)
            (.leaf b2.1 b2.2 ⟨m, data.tend, cost.2⟩), r.1, r.2.1, true)
  | n => (n, tris, aux, false)

/-- The axis-selection and split attempt of `Bvh::build_impl` (mesh.rs
lines 163–178): evaluate the three axes, then try to split along the axis
with the least finite cost (ties broken X, Y, Z). -/
def Bvh.choose_split (self : Bvh) (tris : List Tri) (aux : List BvhTriAux) :
    Bvh × List Tri × List BvhTriAux × Bool :=
  let ex := self.eval_axis aux 0
  let ey := self.eval_axis aux 1
  let ez := self.eval_axis aux 2
  let x := F.add ex.2.1 ex.2.2
  let y := F.add ey.2.1 ey.2.2
  let z := F.add ez.2.1 ez.2.2
  if F.isFinite x && F.lt x y && F.lt x z then
    self.try_split tris aux 0 ex.1 (ex.2.1, ex.2.2)
  else if F.isFinite y && F.lt y z then
    self.try_split tris aux 1 ey.1 (ey.2.1, ey.2.2)
  else if F.isFinite z then
    self.try_split tris aux 2 ez.1 (ez.2.1, ez.2.2)
  else (self, tris, aux, false)

/-- `Bvh::build_impl`: split a BVH node if possible, then recurse.  The Rust
recursion is bounded by the depth check `depth >= MAX_DEPTH`; here `fuel`
stands for `MAX_DEPTH - depth`, so `fuel = 0` is exactly that check and the
initial call passes `MAX_DEPTH`. -/
def Bvh.build_impl : ℕ → Bvh → List Tri → List BvhTriAux → Bvh × List Tri × List BvhTriAux
  | _, .node bmin bmax l r, tris, aux => (.node bmin bmax l r, tris, aux)
  | 0, .leaf bmin bmax data, tris, aux => (.leaf bmin bmax data, tris, aux)
  | fuel + 1, .leaf bmin bmax data, tris, aux =>
      if data.tend - data.tbegin ≤ 2 * MIN_TRI then (.leaf bmin bmax data, tris, aux)
      else
        match (Bvh.leaf bmin bmax data).choose_split tris aux with
        | (.node nmin nmax l r, tris2, aux2, _) =>
            let L := Bvh.build_impl fuel l tris2 aux2
            let R := Bvh.build_impl fuel r L.2.1 L.2.2
            (.node nmin nmax L.1 R.1, R.2.1, R.2.2)
        | (lf, tris2, aux2, _) => (lf, tris2, aux2)

/-- The f32 literal `0.33333332` of mesh.rs, rounded to the nearest f32. -/
def centerFactor : F := .fin ⟨5592405, 16777216⟩

/-- The per-triangle auxiliary data created at the top of `Bvh::build`. -/
def Bvh.buildAux (mesh : Mesh) : List BvhTriAux :=
  mesh.tris.map (fun tri =>
    let a := mesh.verts.getD tri.1 Vec3.zero
    let b := mesh.verts.getD tri.2.1 Vec3.zero
    let c := mesh.verts.getD tri.2.2 Vec3.zero
    { min := a.minV (b.minV c)
      max := a.maxV (b.maxV c)
      center := ((a.addV b).addV c).mulS centerFactor
      area := F.mul ((b.subV a).cross (c.subV a)).length (F.fin ⟨1, 2⟩) })

/-- `Bvh::build`: build a BVH for the mesh, returning the hierarchy and the
reordered triangle array (the Rust code permutes `mesh.tris` in place).
NOTE: the root `max` folds over `f.min` — mirroring the source verbatim
(mesh.rs line 209), which claim C1 is about. -/
def Bvh.build (mesh : Mesh) : Bvh × List Tri :=
  let aux := Bvh.buildAux mesh
  let tmp : Bvh := .leaf
    (aux.foldl (fun a f => a.minV f.min) Vec3.MAXC)
    (aux.foldl (fun a f => a.maxV f.min) Vec3.MINC)
    ⟨0, mesh.tris.length, Bvh.eval_sah aux 0 (F.fin fMAXQ) true⟩
  let r := Bvh.build_impl MAX_DEPTH tmp mesh.tris aux
  (r.1, r.2.1)

/-- `Mesh::create_bvh`. -/
def Mesh.create_bvh (mesh : Mesh) : Mesh :=
  let r := Bvh.build mesh
  { mesh with bvh := some r.1, tris := r.2 }

/-! ## scene.rs: transforms and the scene graph -/

/-- glam Vec4 over the idealized scalar. -/
structure Vec4 where
  x : F
  y : F
  z : F
  w : F
deriving DecidableEq

def Vec4.scale (v : Vec4) (s : F) : Vec4 :=
  ⟨F.mul v.x s, F.mul v.y s, F.mul v.z s, F.mul v.w s⟩

def Vec4.add (a b : Vec4) : Vec4 :=
  ⟨F.add a.x b.x, F.add a.y b.y, F.add a.z b.z, F.add a.w b.w⟩

/-- glam Mat4 (column-major; c0..c3 are x_axis..w_axis). -/
structure Mat4 where
  c0 : Vec4
  c1 : Vec4
  c2 : Vec4
  c3 : Vec4
deriving DecidableEq

def Mat4.mulVec4 (m : Mat4) (v : Vec4) : Vec4 :=
  (((m.c0.scale v.x).add (m.c1.scale v.y)).add (m.c2.scale v.z)).add (m.c3.scale v.w)

/-- glam `Mat4 * Mat4` (standard matrix product). -/
def Mat4.mul (a b : Mat4) : Mat4 :=
  ⟨a.mulVec4 b.c0, a.mulVec4 b.c1, a.mulVec4 b.c2, a.mulVec4 b.c3⟩

def Mat4.id : Mat4 :=
  ⟨⟨F.ofInt 1, F.ofInt 0, F.ofInt 0, F.ofInt 0⟩, ⟨F.ofInt 0, F.ofInt 1, F.ofInt 0, F.ofInt 0⟩,
   ⟨F.ofInt 0, F.ofInt 0, F.ofInt 1, F.ofInt 0⟩, ⟨F.ofInt 0, F.ofInt 0, F.ofInt 0, F.ofInt 1⟩⟩

/-- glam `Mat4::transform_point3` (assumes an affine matrix). -/
def Mat4.transform_point3 (m : Mat4) (p : Vec3) : Vec3 :=
  let v := (((m.c0.scale p.x).add (m.c1.scale p.y)).add (m.c2.scale p.z)).add m.c3
  ⟨v.x, v.y, v.z⟩

/-- glam `Mat4::transform_vector3`. -/
def Mat4.transform_vector3 (m : Mat4) (p : Vec3) : Vec3 :=
  let v := ((m.c0.scale p.x).add (m.c1.scale p.y)).add (m.c2.scale p.z)
  ⟨v.x, v.y, v.z⟩

/-- `Transform` from scene.rs: a matrix with its precomputed inverse. -/
structure Transform where
  matrix : Mat4
  inv_matrix : Mat4
deriving DecidableEq

/-- `impl Mul<Transform> for Transform` (scene.rs lines 21–30):
`matrix = self.matrix * rhs.matrix`, `inv_matrix = rhs.inv_matrix * self.inv_matrix`. -/
def Transform.mul (a b : Transform) : Transform :=
  ⟨a.matrix.mul b.matrix, b.inv_matrix.mul a.inv_matrix⟩

/-- `Transform::default()` (glam defaults matrices to the identity). -/
def Transform.idT : Transform := ⟨Mat4.id, Mat4.id⟩

/-- `PhysProp` from scene.rs. -/
structure PhysProp where
  ior : F
  opacity : F
  roughness : F
  color : Vec3
  emission : Vec3
deriving DecidableEq

def PhysProp.default : PhysProp :=
  ⟨.fin ⟨3, 2⟩, F.ofInt 1, .fin ⟨1, 2⟩, ⟨.fin ⟨1, 2⟩, .fin ⟨1, 2⟩, .fin ⟨1, 2⟩⟩, Vec3.zero⟩

/-- `Model` from scene.rs.  (Mesh sharing is by `Arc` in Rust; the serializer
of shader_buffer.rs never compares meshes, so value-carrying suffices.) -/
inductive Model where
  | none
  | sphere
  | plane
  | mesh (m : Mesh)

/-- The comparison `node.model != Model::None` of shader_buffer.rs line 346:
against `Model::None`, `PartialEq for Model` reduces to a discriminant
check, i.e. to this. -/
def Model.isNone : Model → Bool
  | .none => true
  | _ => false

mutual
/-- `Node` from scene.rs, with its `children: Vec<Node>` represented by the
mutually inductive `NodeList` (a plain list, spelled out so that all
recursion over the scene graph is structural). -/
inductive Node where
  | mk (transform : Transform) (children : NodeList) (model : Model) (prop : PhysProp)
/-- The children list of a scene node (`Vec<Node>`). -/
inductive NodeList where
  | nil
  | cons (head : Node) (tail : NodeList)
end

def Node.transform : Node → Transform
  | .mk t _ _ _ => t

def Node.children : Node → NodeList
  | .mk _ c _ _ => c

def Node.model : Node → Model
  | .mk _ _ m _ => m

def Node.prop : Node → PhysProp
  | .mk _ _ _ p => p

def NodeList.length : NodeList → ℕ
  | .nil => 0
  | .cons _ t => NodeList.length t + 1

/-- `Skybox` from scene.rs. -/
structure Skybox where
  ground_color : Vec3
  horizon_color : Vec3
  skybox_color : Vec3
  sun_color : Vec3
  sun_direction : Vec3
  sun_radius : F
deriving DecidableEq

def Skybox.zeroSky : Skybox :=
  ⟨Vec3.zero, Vec3.zero, Vec3.zero, Vec3.zero, Vec3.zero, .fin Q.zero⟩

/-- `Scene` from scene.rs. -/
structure Scene where
  nodes : NodeList
  skybox : Skybox

/-! ## shader_buffer.rs: the GPU scene serializer -/

/-- `u32::MAX`, the sentinel for absent channels. -/
def U32MAX : ℕ := 4294967295

structure GpuVec4 where
  x : F
  y : F
  z : F
  w : F
deriving DecidableEq

/-- `From<Vec3> for GpuVec4` (w = 0). -/
def GpuVec4.ofVec3 (v : Vec3) : GpuVec4 := ⟨v.x, v.y, v.z, .fin Q.zero⟩

def GpuVec4.zero : GpuVec4 := ⟨.fin Q.zero, .fin Q.zero, .fin Q.zero, .fin Q.zero⟩

structure GpuVec2 where
  x : F
  y : F
deriving DecidableEq

def GpuVec2.zero : GpuVec2 := ⟨.fin Q.zero, .fin Q.zero⟩

def GpuVec2.ofVec2 (v : Vec2) : GpuVec2 := ⟨v.x, v.y⟩

/-- `GpuTransform` (the Rust struct stores both matrices as column arrays). -/
structure GpuTransform where
  matrix : Mat4
  inv_matrix : Mat4
deriving DecidableEq

def GpuTransform.ofTransform (t : Transform) : GpuTransform := ⟨t.matrix, t.inv_matrix⟩

structure GpuPhysProp where
  ior : F
  opacity : F
  roughness : F
  color : GpuVec4
  emission : GpuVec4
deriving DecidableEq

def GpuPhysProp.ofPhysProp (p : PhysProp) : GpuPhysProp :=
  ⟨p.ior, p.opacity, p.roughness, GpuVec4.ofVec3 p.color, GpuVec4.ofVec3 p.emission⟩

/-- `GpuObject`; model_type is the `GpuObjectType` discriminant
(Sphere = 0, Plane = 1, Mesh = 2). -/
structure GpuObject where
  transform : GpuTransform
  prop : GpuPhysProp
  model_type : ℕ
  model_index : ℕ
deriving DecidableEq

/-- `GpuMesh`: triangle count and offsets into the shared buffers. -/
structure GpuMesh where
  num_tris : ℕ
  bvh_offset : ℕ
  tri_offset : ℕ
  vert_offset : ℕ
  norm_offset : ℕ
  vcol_offset : ℕ
  uv_offset : ℕ
deriving DecidableEq

def GpuMesh.zeroMesh : GpuMesh := ⟨0, 0, 0, 0, 0, 0, 0⟩

/-- `GpuBvh`: one flattened BVH entry. -/
structure GpuBvh where
  min : GpuVec4
  max : GpuVec4
  children : ℕ
  tri_count : ℕ
deriving DecidableEq

def GpuBvh.zeroBvh : GpuBvh := ⟨GpuVec4.zero, GpuVec4.zero, 0, 0⟩

structure GpuSkybox where
  ground_color : GpuVec4
  horizon_color : GpuVec4
  skybox_color : GpuVec4
  sun_color : GpuVec4
  sun_direction : GpuVec4
  sun_radius : F
deriving DecidableEq

def GpuSkybox.ofSkybox (s : Skybox) : GpuSkybox :=
  ⟨GpuVec4.ofVec3 s.ground_color, GpuVec4.ofVec3 s.horizon_color,
   GpuVec4.ofVec3 s.skybox_color, GpuVec4.ofVec3 s.sun_color,
   GpuVec4.ofVec3 s.sun_direction, s.sun_radius⟩

/-- `NodeBuildCtx`: the append-only output buffers of one serializer pass. -/
structure NodeBuildCtx where
  objects : List GpuObject
  meshes : List GpuMesh
  tris : List ℕ
  verts : List GpuVec4
  norms : List GpuVec4
  vcols : List GpuVec4
  uvs : List GpuVec2
  bvh : List GpuBvh

def NodeBuildCtx.empty : NodeBuildCtx := ⟨[], [], [], [], [], [], [], []⟩

/-- In-place update of one list entry (Rust `out.bvh[index].field = v`);
no-op when out of range, which never happens in the verified paths. -/
def listModify {α : Type} (l : List α) (i : ℕ) (f : α → α) : List α :=
  match l.get? i with
  | some a => l.set i (f a)
  | none => l

/-- `GpuScene::build_bvh` (shader_buffer.rs lines 253–278), verbatim:
for an interior node it pushes the two children's bounds, then sets
`out.bvh[index].children = index + 1` and recurses at
`child_index = out.bvh.len() - 2` — claim C4 is about the mismatch. -/
def GpuScene.build_bvh (out : NodeBuildCtx) (node : Bvh) (index : ℕ) (tri_offset : ℕ) :
    NodeBuildCtx :=
  match node with
  | .node _ _ l r =>
      let out := { out with bvh := out.bvh ++
        ([⟨GpuVec4.ofVec3 l.min, GpuVec4.ofVec3 l.max, 0, 0⟩,
          ⟨GpuVec4.ofVec3 r.min, GpuVec4.ofVec3 r.max, 0, 0⟩] : List GpuBvh) }
      let out := { out with bvh := (listModify out.bvh index
        (fun e => { e with children := index + 1 })) }
      let child_index := out.bvh.length - 2
      let out := GpuScene.build_bvh out l child_index tri_offset
      GpuScene.build_bvh out r (child_index + 1) tri_offset
  | .leaf _ _ lf =>
      { out with bvh := (listModify out.bvh index
        (fun e => { e with children := lf.tbegin + tri_offset,
                           tri_count := lf.tend - lf.tbegin })) }

/-- The three corners of a triangle in push order. -/
def triCorners (t : Tri) : List ℕ := [t.1, t.2.1, t.2.2]

/-- `GpuScene::build_mesh` (shader_buffer.rs lines 280–323). -/
def GpuScene.build_mesh (out : NodeBuildCtx) (mesh : Mesh) : NodeBuildCtx :=
  let gpu_mesh : GpuMesh :=
    { num_tris := mesh.tris.length
      bvh_offset := U32MAX
      tri_offset := out.tris.length / 3
      vert_offset := out.verts.length
      norm_offset := U32MAX
      vcol_offset := U32MAX
      uv_offset := U32MAX }
  let out := { out with tris := out.tris ++ mesh.tris.flatMap triCorners }
  let out := { out with verts := out.verts ++ mesh.verts.map GpuVec4.ofVec3 }
  let p :=
    match mesh.bvh with
    | some bvh =>
        let gm := { gpu_mesh with bvh_offset := out.bvh.length }
        let out := { out with bvh := out.bvh ++
          ([⟨GpuVec4.ofVec3 bvh.min, GpuVec4.ofVec3 bvh.max, 0, 0⟩] : List GpuBvh) }
        (gm, GpuScene.build_bvh out bvh (out.bvh.length - 1) gm.tri_offset)
    | none => (gpu_mesh, out)
  let gpu_mesh := p.1
  let out := p.2
  let p :=
    match mesh.normals with
    | some normals =>
        ({ gpu_mesh with norm_offset := out.norms.length },
         { out with norms := out.norms ++ normals.map GpuVec4.ofVec3 })
    | none => (gpu_mesh, out)
  let gpu_mesh := p.1
  let out := p.2
  let p :=
    match mesh.vert_cols with
    | some vcols =>
        ({ gpu_mesh with vcol_offset := out.vcols.length },
         { out with vcols := out.vcols ++ vcols.map GpuVec4.ofVec3 })
    | none => (gpu_mesh, out)
  let gpu_mesh := p.1
  let out := p.2
  let p :=
    match mesh.vert_uv with
    | some uvs =>
        ({ gpu_mesh with uv_offset := out.uvs.length },
         { out with uvs := out.uvs ++ uvs.map GpuVec2.ofVec2 })
    | none => (gpu_mesh, out)
  let gpu_mesh := p.1
  let out := p.2
  { out with meshes := out.meshes ++ [gpu_mesh] }

/-- `GpuScene::build_node` (shader_buffer.rs lines 325–342): returns the
updated buffers and the emitted object.  The emitted transform is
`node.transform * transform` — claim C2 is about this order.  The
`Model::None` arm is `unreachable!()` in Rust (guarded by the caller). -/
def GpuScene.build_node (out : NodeBuildCtx) (transform : Transform) (node : Node) :
    NodeBuildCtx × GpuObject :=
  let p :=
    match node.model with
    | .none => (out, 0, 0)
    | .sphere => (out, 0, 0)
    | .plane => (out, 1, 0)
    | .mesh m =>
        let index := out.meshes.length
        (GpuScene.build_mesh out m, 2, index)
  (p.1,
   { transform := GpuTransform.ofTransform (node.transform.mul transform)
     prop := GpuPhysProp.ofPhysProp node.prop
     model_type := p.2.1
     model_index := p.2.2 })

mutual
/-- The body of the `for` loop of `GpuScene::build_nodes` for one node:
emit the object if the node has a model, then recurse into the children
with `transform * node.transform`. -/
def GpuScene.build_one (out : NodeBuildCtx) (transform : Transform) :
    Node → NodeBuildCtx
  | .mk t children model prop =>
      let node : Node := .mk t children model prop
      let out1 :=
        if node.model.isNone then out
        else
          let r := GpuScene.build_node out transform node
          { r.1 with objects := r.1.objects ++ [r.2] }
      GpuScene.build_nodes out1 (transform.mul t) children

/-- `GpuScene::build_nodes` (shader_buffer.rs lines 344–352). -/
def GpuScene.build_nodes (out : NodeBuildCtx) (transform : Transform) :
    NodeList → NodeBuildCtx
  | .nil => out
  | .cons head tail =>
      GpuScene.build_nodes (GpuScene.build_one out transform head) transform tail
end

/-- The flattened buffer set `GpuScene::build` computes (the device-buffer
allocation around it is external I/O and not modelled). -/
structure GpuSceneData where
  objects : List GpuObject
  object_count : ℕ
  meshes : List GpuMesh
  tris : List ℕ
  verts : List GpuVec4
  norms : List GpuVec4
  vcols : List GpuVec4
  uvs : List GpuVec2
  bvh : List GpuBvh
  skybox : List GpuSkybox

/-- `GpuScene::build` (shader_buffer.rs lines 354–473): traversal from the
identity transform, then padding of the empty buffers (meshes, tris, verts,
norms, vcols, uvs, bvh — not objects), then assembly with
`object_count = scene.nodes.len()`. -/
def GpuScene.build (scene : Scene) : GpuSceneData :=
  let ctx := GpuScene.build_nodes NodeBuildCtx.empty Transform.idT scene.nodes
  { objects := ctx.objects
    object_count := NodeList.length scene.nodes
    meshes := if ctx.meshes.isEmpty then [GpuMesh.zeroMesh] else ctx.meshes
    tris := if ctx.tris.isEmpty then [0] else ctx.tris
    verts := if ctx.verts.isEmpty then [GpuVec4.zero] else ctx.verts
    norms := if ctx.norms.isEmpty then [GpuVec4.zero] else ctx.norms
    vcols := if ctx.vcols.isEmpty then [GpuVec4.zero] else ctx.vcols
    uvs := if ctx.uvs.isEmpty then [GpuVec2.zero] else ctx.uvs
    bvh := if ctx.bvh.isEmpty then [GpuBvh.zeroBvh] else ctx.bvh
    skybox := [GpuSkybox.ofSkybox scene.skybox] }

/-! ## Concrete inputs used by the claim evaluations -/

/-- A one-triangle mesh: vertices (0,0,0), (1,0,0), (0,1,0). -/
def exMesh1 : Mesh :=
  ⟨none, [(0, 1, 2)],
   [Vec3.zero, ⟨F.ofInt 1, F.ofInt 0, F.ofInt 0⟩, ⟨F.ofInt 0, F.ofInt 1, F.ofInt 0⟩],
   none, none, none⟩

/-- A leaf whose bounding box is [10,20]³ covering 6 triangles (more than
MAX_SLICES), as reached by `eval_axis` during a build. -/
def exNode8 : Bvh :=
  .leaf ⟨F.ofInt 10, F.ofInt 10, F.ofInt 10⟩ ⟨F.ofInt 20, F.ofInt 20, F.ofInt 20⟩ ⟨0, 6, .fin Q.zero⟩

def exAux8 : List BvhTriAux := List.replicate 6 dAux

/-! ## Claim theorems -/

set_option maxRecDepth 10000

/-- C1: the claim states that in the BVH produced by `Bvh::build` every
node's [min,max] box contains its children / triangles, and in particular
the root's max is at least the maximum vertex coordinate of every triangle.
The code computes the root `max` by folding the per-triangle *minima*
(mesh.rs line 209, `map(|f| f.min)` under a max-fold), so for the
one-triangle mesh with a vertex at x = 1 the root box degenerates to
max = (0,0,0) and the triangle's own bounding box (max x = 1) is not
contained: the intended invariant (and the claim) fail at the root. -/
theorem claim_C1_root_max_bug :
    (Bvh.build exMesh1).1.max = Vec3.zero ∧
    exMesh1.verts.getD 1 Vec3.zero = ⟨F.ofInt 1, F.ofInt 0, F.ofInt 0⟩ ∧
    F.lt ((Bvh.build exMesh1).1.max.x) (F.ofInt 1) = true := by decide

/-- C8: the claim states that for a range of more than MAX_SLICES triangles
the candidate split positions lie between the node's min and max on the
axis.  The code computes `(f + 0.5) * scale` without adding the box's min
(mesh.rs lines 70–73), so for a node whose box is [10,20] on axis 0 the
candidates are 1, 3, 5, 7, 9 — all strictly below the box. -/
theorem claim_C8_slice_points_bug :
    Bvh.slice_points exNode8 exAux8 0 =
      [F.ofInt 1, F.ofInt 3, F.ofInt 5, F.ofInt 7, F.ofInt 9] ∧
    (Bvh.slice_points exNode8 exAux8 0).all
      (fun p => F.lt p (exNode8.min.idx 0)) = true := by decide

/-! Concrete scenes for the serializer claims. -/

/-- Translation by (1, 0, 0) with its inverse. -/
def tA : Transform :=
  ⟨{ Mat4.id with c3 := ⟨F.ofInt 1, F.ofInt 0, F.ofInt 0, F.ofInt 1⟩ },
   { Mat4.id with c3 := ⟨F.ofInt (-1), F.ofInt 0, F.ofInt 0, F.ofInt 1⟩ }⟩

/-- Rotation by 90° about Z with its inverse. -/
def tC : Transform :=
  ⟨{ Mat4.id with
      c0 := ⟨F.ofInt 0, F.ofInt 1, F.ofInt 0, F.ofInt 0⟩
      c1 := ⟨F.ofInt (-1), F.ofInt 0, F.ofInt 0, F.ofInt 0⟩ },
   { Mat4.id with
      c0 := ⟨F.ofInt 0, F.ofInt (-1), F.ofInt 0, F.ofInt 0⟩
      c1 := ⟨F.ofInt 1, F.ofInt 0, F.ofInt 0, F.ofInt 0⟩ }⟩

/-- A→B→C chain: A translates by (1,0,0), B is identity, C rotates 90°
about Z and carries a Sphere model; only C is renderable. -/
def exScene2 : Scene :=
  ⟨.cons
     (.mk tA
       (.cons
         (.mk Transform.idT
           (.cons (.mk tC .nil .sphere PhysProp.default) .nil)
           .none PhysProp.default)
         .nil)
       .none PhysProp.default)
     .nil,
   Skybox.zeroSky⟩

def dObj : GpuObject :=
  ⟨⟨Mat4.id, Mat4.id⟩, GpuPhysProp.ofPhysProp PhysProp.default, 0, 0⟩

/-- A one-triangle mesh used by the C3 sharing counterexample. -/
def exMesh3 : Mesh :=
  ⟨none, [(0, 1, 2)],
   [Vec3.zero, ⟨F.ofInt 1, F.ofInt 0, F.ofInt 0⟩, ⟨F.ofInt 0, F.ofInt 1, F.ofInt 0⟩],
   none, none, none⟩

/-- Two root nodes referencing the same mesh. -/
def exScene3 : Scene :=
  ⟨.cons (.mk Transform.idT .nil (.mesh exMesh3) PhysProp.default)
     (.cons (.mk Transform.idT .nil (.mesh exMesh3) PhysProp.default) .nil),
   Skybox.zeroSky⟩

/-- A depth-2 BVH: root = node(A, B) with A = node(leaf [0,1), leaf [1,2))
and B = leaf [2,3). -/
def exBvh4 : Bvh :=
  .node Vec3.zero Vec3.zero
    (.node Vec3.zero Vec3.zero
      (.leaf Vec3.zero Vec3.zero ⟨0, 1, .fin Q.zero⟩)
      (.leaf Vec3.zero Vec3.zero ⟨1, 2, .fin Q.zero⟩))
    (.leaf Vec3.zero Vec3.zero ⟨2, 3, .fin Q.zero⟩)

/-- A three-triangle mesh with the depth-2 BVH attached. -/
def exMesh4 : Mesh :=
  ⟨some exBvh4, [(0, 1, 2), (0, 1, 2), (0, 1, 2)],
   [Vec3.zero, ⟨F.ofInt 1, F.ofInt 0, F.ofInt 0⟩, ⟨F.ofInt 0, F.ofInt 1, F.ofInt 0⟩],
   none, none, none⟩

def exScene4 : Scene :=
  ⟨.cons (.mk Transform.idT .nil (.mesh exMesh4) PhysProp.default) .nil, Skybox.zeroSky⟩

def dBvh : GpuBvh := GpuBvh.zeroBvh

/-- A one-triangle mesh (distinct values from exMesh3) for the C5
renumbering counterexample. -/
def exMesh5 : Mesh :=
  ⟨none, [(0, 1, 2)],
   [Vec3.zero, ⟨F.ofInt 2, F.ofInt 0, F.ofInt 0⟩, ⟨F.ofInt 0, F.ofInt 2, F.ofInt 0⟩],
   none, none, none⟩

def exScene5 : Scene :=
  ⟨.cons (.mk Transform.idT .nil (.mesh exMesh5) PhysProp.default)
     (.cons (.mk Transform.idT .nil (.mesh exMesh5) PhysProp.default) .nil),
   Skybox.zeroSky⟩

def dMesh : GpuMesh := GpuMesh.zeroMesh

/-- The empty scene. -/
def exScene9 : Scene := ⟨.nil, Skybox.zeroSky⟩

/-- A root node with no model whose only child carries a Sphere model. -/
def exScene10 : Scene :=
  ⟨.cons
     (.mk Transform.idT
       (.cons (.mk Transform.idT .nil .sphere PhysProp.default) .nil)
       .none PhysProp.default)
     .nil,
   Skybox.zeroSky⟩

/-- C2: the claim states an emitted object's world transform is
`accumulated.matrix * node.matrix` (ancestor-first), so for the A→B→C chain
the origin of C's local space must land at (1,0,0).  The code emits
`node.transform * transform` (shader_buffer.rs line 337) — matrix
`node.matrix * accumulated.matrix` — so the emitted matrix sends the origin
to (0,1,0) instead, and differs from the ancestor-first product (which does
send it to (1,0,0)). -/
theorem claim_C2_transform_order_bug :
    (((GpuScene.build exScene2).objects.getD 0 dObj).transform.matrix.transform_point3
        Vec3.zero = ⟨F.ofInt 0, F.ofInt 1, F.ofInt 0⟩) ∧
    (((tA.mul Transform.idT).mul tC).matrix.transform_point3
        Vec3.zero = ⟨F.ofInt 1, F.ofInt 0, F.ofInt 0⟩) ∧
    ((GpuScene.build exScene2).objects.getD 0 dObj).transform.matrix ≠
      ((tA.mul Transform.idT).mul tC).matrix := by decide

/-- C3 counterexample: the claim states that two nodes sharing one mesh
cause a single flatten and equal `model_index`es.  `build_node` has no
dedup check (shader_buffer.rs lines 330–334): the shared mesh is flattened
twice and the two objects point at distinct `GpuMesh` entries 0 and 1. -/
theorem claim_C3_cex :
    (GpuScene.build exScene3).meshes.length = 2 ∧
    (GpuScene.build exScene3).objects.map (fun o => o.model_index) = [0, 1] := by decide

/-- C4: the claim states every interior bvh entry's `children` equals the
buffer index of its first child.  `build_bvh` writes `children = index + 1`
(shader_buffer.rs line 268) although the children are pushed at the end of
the buffer: for the depth-2 tree the interior entry at index 1 gets
`children = 2`, yet entry 2 is its *sibling* leaf (tri_count 1) and its
real children sit at indices 3 and 4. -/
theorem claim_C4_children_index_bug :
    (GpuScene.build exScene4).bvh.map (fun e => (e.children, e.tri_count)) =
      [(1, 0), (2, 0), (2, 1), (0, 1), (1, 1)] ∧
    ((GpuScene.build exScene4).bvh.getD 1 dBvh).tri_count = 0 ∧
    ((GpuScene.build exScene4).bvh.getD 1 dBvh).children = 2 ∧
    ((GpuScene.build exScene4).bvh.getD 2 dBvh).tri_count = 1 := by decide

/-- C5 counterexample: the claim states appended triangle-corner indices
are renumbered by the mesh's vertex offset.  `build_mesh` pushes the
mesh-local corner indices unchanged (shader_buffer.rs line 293): the second
flatten of the shared mesh records `vert_offset = 3` but still appends
[0, 1, 2], not [3, 4, 5]. -/
theorem claim_C5_cex :
    (GpuScene.build exScene5).tris = [0, 1, 2, 0, 1, 2] ∧
    ((GpuScene.build exScene5).meshes.getD 1 dMesh).vert_offset = 3 := by decide

/-- C9 counterexample: the claim states *every* buffer (objects included)
holds exactly one placeholder record for the empty scene.  `GpuScene::build`
pads meshes/tris/verts/norms/vcols/uvs/bvh but never `objects`
(shader_buffer.rs lines 371–404), so `objects` is empty. -/
theorem claim_C9_cex :
    (GpuScene.build exScene9).objects.length = 0 := by decide

/-- C9 as amended: for the empty scene every buffer *except objects* holds
exactly one zero-valued placeholder record, `objects` is left empty, and
`object_count = 0`. -/
theorem claim_C9_amended :
    (GpuScene.build exScene9).objects = [] ∧
    (GpuScene.build exScene9).object_count = 0 ∧
    (GpuScene.build exScene9).meshes = [GpuMesh.zeroMesh] ∧
    (GpuScene.build exScene9).tris = [0] ∧
    (GpuScene.build exScene9).verts = [GpuVec4.zero] ∧
    (GpuScene.build exScene9).norms = [GpuVec4.zero] ∧
    (GpuScene.build exScene9).vcols = [GpuVec4.zero] ∧
    (GpuScene.build exScene9).uvs = [GpuVec2.zero] ∧
    (GpuScene.build exScene9).bvh = [GpuBvh.zeroBvh] := by decide

/-- C10 counterexample: the claim states `object_count` *differs* from the
number of emitted objects whenever a root node has model None or a deeper
node is renderable.  In this scene the root has model None and its child is
renderable, yet both counts are 1 (the deficit and the surplus cancel). -/
theorem claim_C10_cex :
    ((match exScene10.nodes with
       | .cons h _ => h.model.isNone
       | .nil => false) = true) ∧
    (GpuScene.build exScene10).object_count = 1 ∧
    (GpuScene.build exScene10).objects.length = 1 := by decide

/-! ## Serializer bookkeeping lemmas (for the general forms of C3, C5, C10) -/

theorem build_bvh_objects (node : Bvh) :
    ∀ out index toff, (GpuScene.build_bvh out node index toff).objects = out.objects := by
  induction node with
  | node bmin bmax l r ihl ihr =>
      intro out index toff
      simp only [GpuScene.build_bvh, ihl, ihr, listModify]
  | leaf bmin bmax lf =>
      intro out index toff
      simp only [GpuScene.build_bvh, listModify]

theorem build_bvh_meshes (node : Bvh) :
    ∀ out index toff, (GpuScene.build_bvh out node index toff).meshes = out.meshes := by
  induction node with
  | node bmin bmax l r ihl ihr =>
      intro out index toff
      simp only [GpuScene.build_bvh, ihl, ihr, listModify]
  | leaf bmin bmax lf =>
      intro out index toff
      simp only [GpuScene.build_bvh, listModify]

theorem build_bvh_tris (node : Bvh) :
    ∀ out index toff, (GpuScene.build_bvh out node index toff).tris = out.tris := by
  induction node with
  | node bmin bmax l r ihl ihr =>
      intro out index toff
      simp only [GpuScene.build_bvh, ihl, ihr, listModify]
  | leaf bmin bmax lf =>
      intro out index toff
      simp only [GpuScene.build_bvh, listModify]

theorem build_mesh_objects (out : NodeBuildCtx) (me : Mesh) :
    (GpuScene.build_mesh out me).objects = out.objects := by
  obtain ⟨bv, tr, ve, no, vc, uv⟩ := me
  cases bv <;> cases no <;> cases vc <;> cases uv <;>
    simp [GpuScene.build_mesh, build_bvh_objects]

/-- `build_mesh` appends exactly one GpuMesh record, whose vertex offset is
the verts length at entry and whose triangle offset is the triple-count of
the tris buffer at entry. -/
theorem build_mesh_meshes (out : NodeBuildCtx) (me : Mesh) :
    ∃ gm : GpuMesh, (GpuScene.build_mesh out me).meshes = out.meshes ++ [gm] ∧
      gm.vert_offset = out.verts.length ∧ gm.tri_offset = out.tris.length / 3 ∧
      gm.num_tris = me.tris.length := by
  obtain ⟨bv, tr, ve, no, vc, uv⟩ := me
  cases bv <;> cases no <;> cases vc <;> cases uv <;>
    · simp only [GpuScene.build_mesh, build_bvh_meshes]
      exact ⟨_, rfl, rfl, rfl, rfl⟩

theorem build_mesh_tris (out : NodeBuildCtx) (me : Mesh) :
    (GpuScene.build_mesh out me).tris = out.tris ++ me.tris.flatMap triCorners := by
  obtain ⟨bv, tr, ve, no, vc, uv⟩ := me
  cases bv <;> cases no <;> cases vc <;> cases uv <;>
    simp [GpuScene.build_mesh, build_bvh_tris]

theorem build_node_objects (out : NodeBuildCtx) (t : Transform) (n : Node) :
    (GpuScene.build_node out t n).1.objects = out.objects := by
  obtain ⟨tr, c, mo, p⟩ := n
  cases mo <;> simp [GpuScene.build_node, Node.model, build_mesh_objects]

mutual
/-- Number of renderable nodes (model ≠ None) in a subtree. -/
def Node.renderCount : Node → ℕ
  | .mk _ children model _ =>
      (if model.isNone then 0 else 1) + NodeList.renderCount children
/-- Number of renderable nodes (model ≠ None) in a forest. -/
def NodeList.renderCount : NodeList → ℕ
  | .nil => 0
  | .cons h t => Node.renderCount h + NodeList.renderCount t
end

mutual
theorem build_one_objects_len (n : Node) :
    ∀ out t, (GpuScene.build_one out t n).objects.length =
      out.objects.length + Node.renderCount n := by
  match n with
  | .mk tr c mo p =>
      intro out t
      rw [GpuScene.build_one, build_nodes_objects_len c, Node.renderCount]
      cases mo <;>
        simp [Node.model, Model.isNone, build_node_objects] <;> omega

theorem build_nodes_objects_len (l : NodeList) :
    ∀ out t, (GpuScene.build_nodes out t l).objects.length =
      out.objects.length + NodeList.renderCount l := by
  match l with
  | .nil => intro out t; rw [GpuScene.build_nodes, NodeList.renderCount]; omega
  | .cons h rest =>
      intro out t
      rw [GpuScene.build_nodes, build_nodes_objects_len rest, build_one_objects_len h,
        NodeList.renderCount]
      omega
end

/-- C10 as amended: `object_count` is the number of root-level nodes, while
the objects buffer receives one entry per renderable node at any depth; the
counts differ exactly when those two numbers differ. -/
theorem claim_C10_amended (scene : Scene) :
    (GpuScene.build scene).object_count = NodeList.length scene.nodes ∧
    (GpuScene.build scene).objects.length = NodeList.renderCount scene.nodes ∧
    ((GpuScene.build scene).object_count ≠ (GpuScene.build scene).objects.length ↔
      NodeList.length scene.nodes ≠ NodeList.renderCount scene.nodes) := by
  have h2 : (GpuScene.build scene).objects.length = NodeList.renderCount scene.nodes := by
    show (GpuScene.build_nodes NodeBuildCtx.empty Transform.idT scene.nodes).objects.length = _
    rw [build_nodes_objects_len]
    simp [NodeBuildCtx.empty]
  have h1 : (GpuScene.build scene).object_count = NodeList.length scene.nodes := rfl
  refine ⟨h1, h2, ?_⟩
  rw [h1, h2]

/-- The loop body of `build_nodes` on a childless node carrying a mesh
model: flatten the mesh and append the emitted object. -/
theorem build_one_mesh_node (out : NodeBuildCtx) (t tr : Transform) (p : PhysProp) (m : Mesh) :
    GpuScene.build_one out t (.mk tr .nil (.mesh m) p) =
      { GpuScene.build_mesh out m with
          objects := (GpuScene.build_mesh out m).objects ++
            [{ transform := GpuTransform.ofTransform (tr.mul t)
               prop := GpuPhysProp.ofPhysProp p
               model_type := 2
               model_index := out.meshes.length }] } := by
  rw [GpuScene.build_one, GpuScene.build_nodes]
  simp [GpuScene.build_node, Node.model, Node.transform, Node.prop, Model.isNone]

/-- A scene of two root nodes sharing one mesh. -/
def twoShared (m : Mesh) : Scene :=
  ⟨.cons (.mk Transform.idT .nil (.mesh m) PhysProp.default)
     (.cons (.mk Transform.idT .nil (.mesh m) PhysProp.default) .nil),
   Skybox.zeroSky⟩

/-- The emitted object of a childless identity-transform node carrying a
mesh model, produced with the meshes buffer holding k entries. -/
def sharedObj (k : ℕ) : GpuObject :=
  { transform := GpuTransform.ofTransform (Transform.idT.mul Transform.idT)
    prop := GpuPhysProp.ofPhysProp PhysProp.default
    model_type := 2
    model_index := k }

def sharedNode (m : Mesh) : Node := .mk Transform.idT .nil (.mesh m) PhysProp.default

def ctx1 (m : Mesh) : NodeBuildCtx :=
  GpuScene.build_one NodeBuildCtx.empty Transform.idT (sharedNode m)

def ctx2 (m : Mesh) : NodeBuildCtx :=
  GpuScene.build_one (ctx1 m) Transform.idT (sharedNode m)

/-- C3 as amended: a mesh shared by two renderable nodes is flattened once
per node (no dedup), and the two objects carry distinct model_index values
0 and 1 pointing at two separate GpuMesh entries. -/
theorem claim_C3_amended (m : Mesh) :
    (GpuScene.build (twoShared m)).meshes.length = 2 ∧
    (GpuScene.build (twoShared m)).objects.map (fun o => o.model_index) = [0, 1] := by
  obtain ⟨g1, hg1, -, -, -⟩ := build_mesh_meshes NodeBuildCtx.empty m
  have h1 : (GpuScene.build_mesh NodeBuildCtx.empty m).meshes = [g1] := by
    simpa [NodeBuildCtx.empty] using hg1
  have hA : ctx1 m = { GpuScene.build_mesh NodeBuildCtx.empty m with
      objects := (GpuScene.build_mesh NodeBuildCtx.empty m).objects ++ [sharedObj 0] } :=
    build_one_mesh_node NodeBuildCtx.empty Transform.idT Transform.idT PhysProp.default m
  have hm1 : (ctx1 m).meshes = [g1] := by rw [hA]; exact h1
  have ho1 : (ctx1 m).objects = [sharedObj 0] := by
    rw [hA]
    show (GpuScene.build_mesh NodeBuildCtx.empty m).objects ++ [sharedObj 0] = [sharedObj 0]
    rw [build_mesh_objects]
    rfl
  obtain ⟨g2, hg2, -, -, -⟩ := build_mesh_meshes (ctx1 m) m
  have hB : ctx2 m = { GpuScene.build_mesh (ctx1 m) m with
      objects := (GpuScene.build_mesh (ctx1 m) m).objects ++
        [sharedObj (ctx1 m).meshes.length] } :=
    build_one_mesh_node (ctx1 m) Transform.idT Transform.idT PhysProp.default m
  rw [hm1] at hB
  have hm2 : (ctx2 m).meshes = [g1, g2] := by
    rw [hB]
    show (GpuScene.build_mesh (ctx1 m) m).meshes = [g1, g2]
    rw [hg2, hm1]
    rfl
  have ho2 : (ctx2 m).objects = [sharedObj 0, sharedObj 1] := by
    rw [hB]
    show (GpuScene.build_mesh (ctx1 m) m).objects ++ [sharedObj 1] = _
    rw [build_mesh_objects, ho1]
    rfl
  have hctx : GpuScene.build_nodes NodeBuildCtx.empty Transform.idT (twoShared m).nodes =
      ctx2 m := by
    show GpuScene.build_nodes _ _ (.cons (sharedNode m) (.cons (sharedNode m) .nil)) = _
    rw [GpuScene.build_nodes, GpuScene.build_nodes, GpuScene.build_nodes]
    rfl
  constructor
  · show (if (GpuScene.build_nodes NodeBuildCtx.empty Transform.idT
        (twoShared m).nodes).meshes.isEmpty then [GpuMesh.zeroMesh]
      else (GpuScene.build_nodes NodeBuildCtx.empty Transform.idT
        (twoShared m).nodes).meshes).length = 2
    rw [hctx, hm2]
    rfl
  · show (GpuScene.build_nodes NodeBuildCtx.empty Transform.idT
      (twoShared m).nodes).objects.map (fun o => o.model_index) = [0, 1]
    rw [hctx, ho2]
    rfl

/-- C5 as amended: the appended triangle-corner indices are the mesh-local
corners, unchanged, and the verts-buffer base is recorded in the appended
GpuMesh's vert_offset (with tri_offset the entry triangle count). -/
theorem claim_C5_amended (out : NodeBuildCtx) (me : Mesh) :
    (GpuScene.build_mesh out me).tris = out.tris ++ me.tris.flatMap triCorners ∧
    ∃ gm : GpuMesh, (GpuScene.build_mesh out me).meshes = out.meshes ++ [gm] ∧
      gm.vert_offset = out.verts.length ∧ gm.tri_offset = out.tris.length / 3 := by
  refine ⟨build_mesh_tris out me, ?_⟩
  obtain ⟨gm, h1, h2, h3, -⟩ := build_mesh_meshes out me
  exact ⟨gm, h1, h2, h3⟩


/-! ## BVH builder invariants (C6, C7) -/

theorem setPerm {α : Type} :
    ∀ (t : List α) (k : ℕ) (a : α) (hk : k < t.length),
      (t.get ⟨k, hk⟩ :: t.set k a).Perm (a :: t) := by
  intro t
  induction t with
  | nil => intro k a hk; simp at hk
  | cons b t' ih =>
      intro k a hk
      match k with
      | 0 => exact List.Perm.swap a b _
      | k + 1 =>
          have hk' : k < t'.length := by simpa using hk
          show (t'.get ⟨k, hk'⟩ :: b :: t'.set k a).Perm (a :: b :: t')
          exact ((List.Perm.swap b _ _).trans ((ih k a hk').cons b)).trans
            (List.Perm.swap a b t')

theorem set_set_perm {α : Type} :
    ∀ (l : List α) (i j : ℕ), (hi : i < l.length) → (hj : j < l.length) →
      ((l.set i (l.get ⟨j, by omega⟩)).set j (l.get ⟨i, by omega⟩)).Perm l := by
  intro l
  induction l with
  | nil => intro i j hi; simp at hi
  | cons a t ih =>
      intro i j hi hj
      match i, j with
      | 0, 0 => simp
      | 0, j + 1 =>
          have hj' : j < t.length := by simpa using hj
          show (t.get ⟨j, hj'⟩ :: t.set j a).Perm (a :: t)
          exact setPerm t j a hj'
      | i + 1, 0 =>
          have hi' : i < t.length := by simpa using hi
          show (t.get ⟨i, hi'⟩ :: t.set i a).Perm (a :: t)
          exact setPerm t i a hi'
      | i + 1, j + 1 =>
          have hi' : i < t.length := by simpa using hi
          have hj' : j < t.length := by simpa using hj
          show (a :: (t.set i _).set j _).Perm (a :: t)
          exact (ih i j hi' hj').cons a

theorem listSwap_perm {α : Type} (l : List α) (i j : ℕ) : (listSwap l i j).Perm l := by
  unfold listSwap
  cases hio : l.get? i with
  | none => exact List.Perm.refl l
  | some a =>
      cases hjo : l.get? j with
      | none => exact List.Perm.refl l
      | some b =>
          have hi : i < l.length := by
            by_contra h
            rw [List.get?_eq_getElem?, List.getElem?_eq_none (by omega)] at hio
            exact Option.noConfusion hio
          have hj : j < l.length := by
            by_contra h
            rw [List.get?_eq_getElem?, List.getElem?_eq_none (by omega)] at hjo
            exact Option.noConfusion hjo
          have ha : a = l.get ⟨i, hi⟩ := by
            rw [List.get?_eq_get hi] at hio
            exact (Option.some.inj hio).symm
          have hb : b = l.get ⟨j, hj⟩ := by
            rw [List.get?_eq_get hj] at hjo
            exact (Option.some.inj hjo).symm
          rw [ha, hb]
          exact set_set_perm l i j hi hj

theorem listSwap_length {α : Type} (l : List α) (i j : ℕ) :
    (listSwap l i j).length = l.length := by
  unfold listSwap
  cases l.get? i <;> cases l.get? j <;> simp

theorem listSwap_getD_ne {α : Type} (l : List α) (i j k : ℕ) (d : α)
    (hki : k ≠ i) (hkj : k ≠ j) : (listSwap l i j).getD k d = l.getD k d := by
  unfold listSwap
  cases l.get? i <;> cases l.get? j <;>
    simp [List.getD_eq_getElem?_getD, List.getElem?_set_ne (Ne.symm hkj),
      List.getElem?_set_ne (Ne.symm hki)]

theorem listSwap_getD_fst {α : Type} (l : List α) (i j : ℕ) (d : α)
    (hi : i < l.length) (hj : j < l.length) :
    (listSwap l i j).getD i d = l.getD j d := by
  unfold listSwap
  rw [List.get?_eq_get hi, List.get?_eq_get hj]
  by_cases hij : i = j
  · subst hij
    simp [List.getD_eq_getElem?_getD, List.getElem?_set_self (by simpa using hi),
      List.getElem?_eq_getElem hi, List.get_eq_getElem]
  · simp [List.getD_eq_getElem?_getD, List.getElem?_set_ne (Ne.symm hij),
      List.getElem?_set_self (by simpa using hi),
      List.getElem?_eq_getElem hj, List.get_eq_getElem]

theorem listSwap_getD_snd {α : Type} (l : List α) (i j : ℕ) (d : α)
    (hi : i < l.length) (hj : j < l.length) :
    (listSwap l i j).getD j d = l.getD i d := by
  unfold listSwap
  rw [List.get?_eq_get hi, List.get?_eq_get hj]
  simp only [List.get_eq_getElem, List.getD_eq_getElem?_getD]
  rw [List.getElem?_set_self (by simpa using hj), List.getElem?_eq_getElem hi]

/-- In-order list of the leaf triangle ranges of a BVH. -/
def leafRanges : Bvh → List (ℕ × ℕ)
  | .node _ _ l r => leafRanges l ++ leafRanges r
  | .leaf _ _ lf => [(lf.tbegin, lf.tend)]

/-- `tiles b rs e`: the ranges `rs`, in order, tile `[b, e)` contiguously:
each range starts where the previous ended, and the last ends at `e`. -/
def tiles : ℕ → List (ℕ × ℕ) → ℕ → Prop
  | b, [], e => b = e
  | b, (x, y) :: rest, e => x = b ∧ b ≤ y ∧ tiles y rest e

/-- `spans t b e`: the subtree `t` covers exactly the range `[b, e)`: a leaf
carries it verbatim, an interior node splits it at some midpoint. -/
def spans : Bvh → ℕ → ℕ → Prop
  | .leaf _ _ lf, b, e => lf.tbegin = b ∧ lf.tend = e ∧ b ≤ e
  | .node _ _ l r, b, e => ∃ m', b ≤ m' ∧ m' ≤ e ∧ spans l b m' ∧ spans r m' e

/-- Like `spans` but every interior split is strict: both children cover a
non-empty subrange. -/
def spansStrict : Bvh → ℕ → ℕ → Prop
  | .leaf _ _ lf, b, e => lf.tbegin = b ∧ lf.tend = e ∧ b ≤ e
  | .node _ _ l r, b, e =>
      ∃ m', b < m' ∧ m' < e ∧ spansStrict l b m' ∧ spansStrict r m' e

theorem tiles_append : ∀ (l1 l2 : List (ℕ × ℕ)) (b m e : ℕ),
    tiles b l1 m → tiles m l2 e → tiles b (l1 ++ l2) e
  | [], l2, b, m, e, h1, h2 => by
      have hbm : b = m := h1
      subst hbm
      exact h2
  | (x, y) :: rest, l2, b, m, e, h1, h2 => by
      obtain ⟨hx, hby, hrest⟩ := h1
      exact ⟨hx, hby, tiles_append rest l2 y m e hrest h2⟩

theorem spans_tiles : ∀ (t : Bvh) (b e : ℕ), spans t b e → tiles b (leafRanges t) e
  | .leaf _ _ lf, b, e, h => by
      obtain ⟨h1, h2, h3⟩ := h
      exact ⟨h1, by omega, h2⟩
  | .node _ _ l r, b, e, h => by
      obtain ⟨m', _, _, hl, hr⟩ := h
      exact tiles_append _ _ b m' e (spans_tiles l b m' hl) (spans_tiles r m' e hr)

theorem spansStrict_spans : ∀ (t : Bvh) (b e : ℕ), spansStrict t b e → spans t b e
  | .leaf _ _ _, _, _, h => h
  | .node _ _ l r, b, e, h => by
      obtain ⟨m', h1, h2, hl, hr⟩ := h
      exact ⟨m', by omega, by omega,
        spansStrict_spans l b m' hl, spansStrict_spans r m' e hr⟩

/-! ### The partition loop: permutation, length, and midpoint invariants -/

theorem split_step_cases (axis : ℕ) (pos : F)
    (st : List Tri × List BvhTriAux × Option ℕ) (i : ℕ) :
    (split_step axis pos st i = (st.1, st.2.1, some i) ∧ st.2.2 = none ∧
      F.lt pos ((st.2.1.getD i dAux).center.idx axis) = true) ∨
    (∃ p, split_step axis pos st i = (st.1, st.2.1, some p) ∧ st.2.2 = some p ∧
      F.lt pos ((st.2.1.getD i dAux).center.idx axis) = true) ∨
    (split_step axis pos st i = (st.1, st.2.1, none) ∧ st.2.2 = none ∧
      F.lt pos ((st.2.1.getD i dAux).center.idx axis) = false) ∨
    (∃ p, split_step axis pos st i =
        (listSwap st.1 p i, listSwap st.2.1 p i, some (p + 1)) ∧ st.2.2 = some p ∧
      F.lt pos ((st.2.1.getD i dAux).center.idx axis) = false) := by
  by_cases hc : F.lt pos ((st.2.1.getD i dAux).center.idx axis) = true
  · cases hm : st.2.2 with
    | none => exact Or.inl ⟨by unfold split_step; rw [hm, hc]; simp, rfl, hc⟩
    | some p =>
        exact Or.inr (Or.inl ⟨p, by unfold split_step; rw [hm, hc]; simp, rfl, hc⟩)
  · rw [Bool.not_eq_true] at hc
    cases hm : st.2.2 with
    | none =>
        exact Or.inr (Or.inr (Or.inl ⟨by unfold split_step; rw [hm, hc]; simp, rfl, hc⟩))
    | some p =>
        exact Or.inr (Or.inr (Or.inr ⟨p, by unfold split_step; rw [hm, hc]; simp, rfl, hc⟩))

theorem split_fold_perm (axis : ℕ) (pos : F) :
    ∀ (n i : ℕ) (st : List Tri × List BvhTriAux × Option ℕ),
      (((List.range' i n).foldl (split_step axis pos) st).1).Perm st.1 := by
  intro n
  induction n with
  | zero => intro i st; exact List.Perm.refl _
  | succ n ih =>
      intro i st
      rw [List.range'_succ, List.foldl_cons]
      rcases split_step_cases axis pos st i with ⟨he, -, -⟩ | ⟨p, he, -, -⟩ |
        ⟨he, -, -⟩ | ⟨p, he, -, -⟩ <;> rw [he]
      · exact ih (i + 1) _
      · exact ih (i + 1) _
      · exact ih (i + 1) _
      · exact (ih (i + 1) _).trans (listSwap_perm st.1 p i)

theorem split_fold_aux_perm (axis : ℕ) (pos : F) :
    ∀ (n i : ℕ) (st : List Tri × List BvhTriAux × Option ℕ),
      (((List.range' i n).foldl (split_step axis pos) st).2.1).Perm st.2.1 := by
  intro n
  induction n with
  | zero => intro i st; exact List.Perm.refl _
  | succ n ih =>
      intro i st
      rw [List.range'_succ, List.foldl_cons]
      rcases split_step_cases axis pos st i with ⟨he, -, -⟩ | ⟨p, he, -, -⟩ |
        ⟨he, -, -⟩ | ⟨p, he, -, -⟩ <;> rw [he]
      · exact ih (i + 1) _
      · exact ih (i + 1) _
      · exact ih (i + 1) _
      · exact (ih (i + 1) _).trans (listSwap_perm st.2.1 p i)

theorem split_fold_aux_len (axis : ℕ) (pos : F)
    (n i : ℕ) (st : List Tri × List BvhTriAux × Option ℕ) :
    ((List.range' i n).foldl (split_step axis pos) st).2.1.length = st.2.1.length :=
  (split_fold_aux_perm axis pos n i st).length_eq

theorem split_fold_some (axis : ℕ) (pos : F) :
    ∀ (n i : ℕ) (st : List Tri × List BvhTriAux × Option ℕ) (p : ℕ),
      st.2.2 = some p →
      ∃ q, ((List.range' i n).foldl (split_step axis pos) st).2.2 = some q := by
  intro n
  induction n with
  | zero => intro i st p hp; exact ⟨p, hp⟩
  | succ n ih =>
      intro i st p hp
      rw [List.range'_succ, List.foldl_cons]
      rcases split_step_cases axis pos st i with ⟨he, hm, -⟩ | ⟨q, he, -, -⟩ |
        ⟨he, hm, -⟩ | ⟨q, he, -, -⟩
      · rw [hp] at hm; exact Option.noConfusion hm
      · rw [he]; exact ih (i + 1) _ q rfl
      · rw [hp] at hm; exact Option.noConfusion hm
      · rw [he]; exact ih (i + 1) _ (q + 1) rfl

theorem split_fold_none_id (axis : ℕ) (pos : F) :
    ∀ (n i : ℕ) (st : List Tri × List BvhTriAux × Option ℕ),
      ((List.range' i n).foldl (split_step axis pos) st).2.2 = none →
      (List.range' i n).foldl (split_step axis pos) st = st ∧ st.2.2 = none := by
  intro n
  induction n with
  | zero => intro i st h; exact ⟨rfl, h⟩
  | succ n ih =>
      intro i st hnone
      rw [List.range'_succ, List.foldl_cons] at hnone ⊢
      rcases split_step_cases axis pos st i with ⟨he, hm, -⟩ | ⟨p, he, -, -⟩ |
        ⟨he, hm, -⟩ | ⟨p, he, -, -⟩
      · rw [he] at hnone
        obtain ⟨q, hq⟩ := split_fold_some axis pos n (i + 1) (st.1, st.2.1, some i) i rfl
        rw [hq] at hnone
        exact Option.noConfusion hnone
      · rw [he] at hnone
        obtain ⟨q, hq⟩ := split_fold_some axis pos n (i + 1) (st.1, st.2.1, some p) p rfl
        rw [hq] at hnone
        exact Option.noConfusion hnone
      · rw [he] at hnone ⊢
        have hst : (st.1, st.2.1, none) = st := by
          rw [← hm]
        rw [hst] at hnone ⊢
        exact ih (i + 1) st hnone
      · rw [he] at hnone
        obtain ⟨q, hq⟩ := split_fold_some axis pos n (i + 1)
          (listSwap st.1 p i, listSwap st.2.1 p i, some (p + 1)) (p + 1) rfl
        rw [hq] at hnone
        exact Option.noConfusion hnone

theorem split_fold_fail (axis : ℕ) (pos : F) :
    ∀ (n i : ℕ) (st : List Tri × List BvhTriAux × Option ℕ),
      st.2.2 = none →
      (∀ j, i ≤ j → j < i + n →
        F.lt pos ((st.2.1.getD j dAux).center.idx axis) = false) →
      (List.range' i n).foldl (split_step axis pos) st = st := by
  intro n
  induction n with
  | zero => intro i st _ _; rfl
  | succ n ih =>
      intro i st hm hall
      rw [List.range'_succ, List.foldl_cons]
      have hci : F.lt pos ((st.2.1.getD i dAux).center.idx axis) = false :=
        hall i (le_refl i) (by omega)
      rcases split_step_cases axis pos st i with ⟨-, -, hc⟩ | ⟨p, -, hp, -⟩ |
        ⟨he, -, -⟩ | ⟨p, -, hp, -⟩
      · rw [hci] at hc; exact Bool.noConfusion hc
      · rw [hm] at hp; exact Option.noConfusion hp
      · rw [he]
        have hst : (st.1, st.2.1, none) = st := by rw [← hm]
        rw [hst]
        exact ih (i + 1) st hm (fun j h1 h2 => hall j (by omega) (by omega))
      · rw [hm] at hp; exact Option.noConfusion hp


/-- Midpoint invariant of the partition loop: when the midpoint is `some p`,
`p` lies in `[lob, i)` and every aux entry at a position in `[p, i)` has its
center strictly beyond `pos`. -/
def midInv (axis : ℕ) (pos : F) (lob i : ℕ) (aux : List BvhTriAux) : Option ℕ → Prop
  | none => True
  | some p => lob ≤ p ∧ p < i ∧
      ∀ j, p ≤ j → j < i → F.lt pos ((aux.getD j dAux).center.idx axis) = true

theorem split_fold_inv (axis : ℕ) (pos : F) :
    ∀ (n i lob : ℕ) (st : List Tri × List BvhTriAux × Option ℕ),
      i + n ≤ st.2.1.length →
      (st.2.2 = none → lob ≤ i) →
      midInv axis pos lob i st.2.1 st.2.2 →
      midInv axis pos lob (i + n)
        ((List.range' i n).foldl (split_step axis pos) st).2.1
        ((List.range' i n).foldl (split_step axis pos) st).2.2 ∧
      (∀ P : BvhTriAux → Prop,
        (∃ j, lob ≤ j ∧ j < i + n ∧ P (st.2.1.getD j dAux)) →
        (∃ j, lob ≤ j ∧ j < i + n ∧
          P ((((List.range' i n).foldl (split_step axis pos) st).2.1).getD j dAux))) := by
  intro n
  induction n with
  | zero =>
      intro i lob st _ _ hinv
      constructor
      · simpa using hinv
      · intro P h
        simpa using h
  | succ n ih =>
      intro i lob st hlen hlobnone hinv
      have hlen1 : i < st.2.1.length := by omega
      have hiadd : i + 1 + n = i + (n + 1) := by omega
      rw [List.range'_succ, List.foldl_cons]
      rcases split_step_cases axis pos st i with ⟨he, hm, hc⟩ | ⟨p, he, hm, hc⟩ |
        ⟨he, hm, hc⟩ | ⟨p, he, hm, hc⟩
      · -- center beyond pos, midpoint was none: midpoint becomes some i
        rw [he]
        have hlobi : lob ≤ i := hlobnone hm
        have h := ih (i + 1) lob (st.1, st.2.1, some i) (by simpa using by omega)
          (fun h => Option.noConfusion h)
          (by
            refine ⟨hlobi, by omega, ?_⟩
            intro j h1 h2
            have hj : j = i := by omega
            rw [hj]
            exact hc)
        rw [hiadd] at h
        exact ⟨h.1, fun P hP => h.2 P (by simpa using hP)⟩
      · -- center beyond pos, midpoint stays some p
        rw [he]
        obtain ⟨hlp, hpi, hreg⟩ := by rw [hm] at hinv; exact hinv
        have h := ih (i + 1) lob (st.1, st.2.1, some p) (by simpa using by omega)
          (fun h => Option.noConfusion h)
          (by
            refine ⟨hlp, by omega, ?_⟩
            intro j h1 h2
            rcases Nat.lt_or_ge j i with hj | hj
            · exact hreg j h1 hj
            · have hj' : j = i := by omega
              rw [hj']
              exact hc)
        rw [hiadd] at h
        exact ⟨h.1, fun P hP => h.2 P (by simpa using hP)⟩
      · -- center not beyond pos, midpoint none: state unchanged
        rw [he]
        have hst : (st.1, st.2.1, (none : Option ℕ)) = st := by rw [← hm]
        rw [hst]
        have h := ih (i + 1) lob st (by omega) (fun _ => by have := hlobnone hm; omega)
          (by rw [hm]; exact trivial)
        rw [hiadd] at h
        exact ⟨h.1, fun P hP => h.2 P (by simpa using hP)⟩
      · -- center not beyond pos, midpoint some p: swap p and i
        rw [he]
        obtain ⟨hlp, hpi, hreg⟩ := by rw [hm] at hinv; exact hinv
        have hplen : p < st.2.1.length := by omega
        have hswlen : (listSwap st.2.1 p i).length = st.2.1.length :=
          listSwap_length st.2.1 p i
        have hgetsnd : (listSwap st.2.1 p i).getD i dAux = st.2.1.getD p dAux :=
          listSwap_getD_snd st.2.1 p i dAux hplen hlen1
        have hgetfst : (listSwap st.2.1 p i).getD p dAux = st.2.1.getD i dAux :=
          listSwap_getD_fst st.2.1 p i dAux hplen hlen1
        have h := ih (i + 1) lob (listSwap st.1 p i, listSwap st.2.1 p i, some (p + 1))
          (by simpa [hswlen] using by omega)
          (fun h => Option.noConfusion h)
          (by
            refine ⟨by omega, by omega, ?_⟩
            intro j h1 h2
            rcases Nat.lt_or_ge j i with hj | hj
            · have hne1 : j ≠ p := by omega
              have hne2 : j ≠ i := by omega
              rw [listSwap_getD_ne st.2.1 p i j dAux hne1 hne2]
              exact hreg j (by omega) hj
            · have hj' : j = i := by omega
              rw [hj', hgetsnd]
              exact hreg p (le_refl p) hpi)
        rw [hiadd] at h
        refine ⟨h.1, ?_⟩
        intro P hP
        refine h.2 P ?_
        obtain ⟨j0, hj0l, hj0r, hPj⟩ := hP
        by_cases hj0p : j0 = p
        · refine ⟨i, by omega, by omega, ?_⟩
          rw [hgetsnd, ← hj0p]
          exact hPj
        · by_cases hj0i : j0 = i
          · refine ⟨p, hlp, by omega, ?_⟩
            rw [hgetfst, ← hj0i]
            exact hPj
          · refine ⟨j0, hj0l, by omega, ?_⟩
            rw [listSwap_getD_ne st.2.1 p i j0 dAux hj0p hj0i]
            exact hPj


/-! ### Scalar and SAH-evaluation facts feeding the split guards -/

theorem F.lt_asymm (a b : F) (h : F.lt a b = true) : F.lt b a = false := by
  cases a <;> cases b <;> simp_all [F.lt, Q.blt] <;> omega

theorem finite_add (a b : F) (h : F.isFinite (F.add a b) = true) :
    F.isFinite a = true ∧ F.isFinite b = true := by
  cases a <;> cases b <;> simp_all [F.add, F.isFinite]

/-- The initial best of `eval_axis` has a non-finite cost sum: the exact sum
f32::MAX + f32::MAX overflows to +inf. -/
theorem init_sum_not_finite :
    F.isFinite (F.add (F.fin fMAXQ) (F.fin fMAXQ)) = false := by decide

theorem foldl_id_of_fixed {β : Type} (f : β → BvhTriAux → β) (init : β) :
    ∀ l : List BvhTriAux, (∀ a ∈ l, f init a = init) → l.foldl f init = init := by
  intro l
  induction l with
  | nil => intro _; rfl
  | cons a t ih =>
      intro h
      rw [List.foldl_cons, h a (List.mem_cons_self a t)]
      exact ih (fun x hx => h x (List.mem_cons_of_mem a hx))

/-- With an empty before-side (no center strictly below `pos`), the SAH cost
is +inf: the sentinel box yields an overflowing positive area and the summed
triangle area is exactly zero, so the division gives +inf. -/
theorem eval_sah_empty_before (slice : List BvhTriAux) (axis : ℕ) (pos : F)
    (h : ∀ a ∈ slice, F.lt (a.center.idx axis) pos = false) :
    Bvh.eval_sah slice axis pos true = F.pinf := by
  unfold Bvh.eval_sah
  rw [foldl_id_of_fixed _ _ slice (by
    intro a ha
    rw [h a ha]
    simp)]
  decide

theorem eval_sah_finite_witness (slice : List BvhTriAux) (axis : ℕ) (pos : F)
    (h : F.isFinite (Bvh.eval_sah slice axis pos true) = true) :
    ∃ a ∈ slice, F.lt (a.center.idx axis) pos = true := by
  by_contra hno
  push_neg at hno
  have hall : ∀ a ∈ slice, F.lt (a.center.idx axis) pos = false := by
    intro a ha
    have := hno a ha
    simpa using this
  rw [eval_sah_empty_before slice axis pos hall] at h
  exact Bool.noConfusion h

theorem foldl_choice {β γ : Type} (f : γ → β → γ) (g : β → γ)
    (hstep : ∀ acc b, f acc b = acc ∨ f acc b = g b) :
    ∀ (l : List β) (init : γ), l.foldl f init = init ∨ ∃ b ∈ l, l.foldl f init = g b := by
  intro l
  induction l with
  | nil => intro init; exact Or.inl rfl
  | cons b t ih =>
      intro init
      rw [List.foldl_cons]
      rcases ih (f init b) with h | ⟨c, hc, he⟩
      · rcases hstep init b with hs | hs
        · exact Or.inl (h.trans hs)
        · exact Or.inr ⟨b, List.mem_cons_self b t, h.trans hs⟩
      · exact Or.inr ⟨c, List.mem_cons_of_mem b hc, he⟩

/-- The best returned by `eval_axis` on a leaf is either the initial triple
(0, f32::MAX, f32::MAX) or a genuine candidate with its two SAH costs. -/
theorem eval_axis_cases (bmin bmax : Vec3) (data : BvhLeaf)
    (aux : List BvhTriAux) (axis : ℕ) :
    (Bvh.leaf bmin bmax data).eval_axis aux axis =
        (F.fin Q.zero, F.fin fMAXQ, F.fin fMAXQ) ∨
    ∃ pt ∈ (Bvh.leaf bmin bmax data).slice_points aux axis,
      (Bvh.leaf bmin bmax data).eval_axis aux axis =
        (pt, Bvh.eval_sah (sliceSeg aux data.tbegin data.tend) axis pt true,
             Bvh.eval_sah (sliceSeg aux data.tbegin data.tend) axis pt false) := by
  have h := foldl_choice
    (fun (best : F × F × F) point =>
      let cost0 := Bvh.eval_sah (sliceSeg aux data.tbegin data.tend) axis point true
      let cost1 := Bvh.eval_sah (sliceSeg aux data.tbegin data.tend) axis point false
      if F.lt (F.add cost0 cost1) (F.add best.2.1 best.2.2) then (point, cost0, cost1)
      else best)
    (fun pt => (pt, Bvh.eval_sah (sliceSeg aux data.tbegin data.tend) axis pt true,
                    Bvh.eval_sah (sliceSeg aux data.tbegin data.tend) axis pt false))
    (by
      intro acc b
      by_cases hc : F.lt
          (F.add (Bvh.eval_sah (sliceSeg aux data.tbegin data.tend) axis b true)
            (Bvh.eval_sah (sliceSeg aux data.tbegin data.tend) axis b false))
          (F.add acc.2.1 acc.2.2) = true
      · exact Or.inr (by simp [hc])
      · exact Or.inl (by simp [hc]))
    ((Bvh.leaf bmin bmax data).slice_points aux axis)
    (F.fin Q.zero, F.fin fMAXQ, F.fin fMAXQ)
  exact h

/-- A member of a slice `aux[b..e]` sits at a position `j ∈ [b, e)` of `aux`. -/
theorem sliceSeg_mem_pos (aux : List BvhTriAux) (b e : ℕ) (a : BvhTriAux)
    (ha : a ∈ sliceSeg aux b e) :
    ∃ j, b ≤ j ∧ j < e ∧ aux.getD j dAux = a := by
  obtain ⟨k, hk, hget⟩ := List.getElem_of_mem ha
  have hk1 : k < e - b := by
    have := hk
    simp only [sliceSeg, List.length_take, List.length_drop] at this
    omega
  have hk2 : b + k < aux.length := by
    have := hk
    simp only [sliceSeg, List.length_take, List.length_drop] at this
    omega
  refine ⟨b + k, by omega, by omega, ?_⟩
  have : (sliceSeg aux b e)[k]? = some a := by
    rw [List.getElem?_eq_getElem hk, hget]
  rw [sliceSeg, List.getElem?_take, if_pos hk1, List.getElem?_drop,
    List.getElem?_eq_getElem hk2] at this
  rw [List.getD_eq_getElem?_getD, List.getElem?_eq_getElem hk2]
  exact Option.some.inj this


/-! ### try_split, choose_split and build_impl specifications -/

theorem try_split_spec (bmin bmax : Vec3) (data : BvhLeaf) (tris : List Tri)
    (aux : List BvhTriAux) (axis : ℕ) (pos : F) (cost : F × F)
    (hbe : data.tbegin ≤ data.tend) (hlen : data.tend ≤ aux.length) :
    ((Bvh.try_split (.leaf bmin bmax data) tris aux axis pos cost).2.1).Perm tris ∧
    (Bvh.try_split (.leaf bmin bmax data) tris aux axis pos cost).2.2.1.length =
      aux.length ∧
    spans (Bvh.try_split (.leaf bmin bmax data) tris aux axis pos cost).1
      data.tbegin data.tend ∧
    ((∃ j, data.tbegin ≤ j ∧ j < data.tend ∧
        F.lt ((aux.getD j dAux).center.idx axis) pos = true) →
      spansStrict (Bvh.try_split (.leaf bmin bmax data) tris aux axis pos cost).1
        data.tbegin data.tend) := by
  have hperm := split_fold_perm axis pos (data.tend - data.tbegin) data.tbegin
    (tris, aux, none)
  have hlen' := split_fold_aux_len axis pos (data.tend - data.tbegin) data.tbegin
    (tris, aux, none)
  have hinv := split_fold_inv axis pos (data.tend - data.tbegin) data.tbegin data.tbegin
    (tris, aux, none) (by simp; omega) (fun _ => le_refl _) trivial
  have hR : split_loop axis pos tris aux data.tbegin data.tend =
      (List.range' data.tbegin (data.tend - data.tbegin)).foldl (split_step axis pos)
        (tris, aux, none) := rfl
  rw [← hR] at hperm hlen' hinv
  cases hmid : (split_loop axis pos tris aux data.tbegin data.tend).2.2 with
  | none =>
      have he : Bvh.try_split (.leaf bmin bmax data) tris aux axis pos cost =
          (.leaf bmin bmax data,
            (split_loop axis pos tris aux data.tbegin data.tend).1,
            (split_loop axis pos tris aux data.tbegin data.tend).2.1, false) := by
        simp only [Bvh.try_split]
        rw [hmid]
      rw [he]
      exact ⟨hperm, hlen', ⟨rfl, rfl, hbe⟩, fun _ => ⟨rfl, rfl, hbe⟩⟩
  | some m =>
      rw [hmid] at hinv
      obtain ⟨⟨hm1, hm2, hreg⟩, htransfer⟩ := hinv
      have hmlt : m < data.tend := by omega
      have he : Bvh.try_split (.leaf bmin bmax data) tris aux axis pos cost =
          (.node bmin bmax
            (.leaf (Bvh.calc_bounds
                (split_loop axis pos tris aux data.tbegin data.tend).2.1
                data.tbegin m).1
              (Bvh.calc_bounds
                (split_loop axis pos tris aux data.tbegin data.tend).2.1
                data.tbegin m).2
              ⟨data.tbegin, m, cost.1⟩)
            (.leaf (Bvh.calc_bounds
                (split_loop axis pos tris aux data.tbegin data.tend).2.1
                m data.tend).1
              (Bvh.calc_bounds
                (split_loop axis pos tris aux data.tbegin data.tend).2.1
                m data.tend).2
              ⟨m, data.tend, cost.2⟩),
            (split_loop axis pos tris aux data.tbegin data.tend).1,
            (split_loop axis pos tris aux data.tbegin data.tend).2.1, true) := by
        simp only [Bvh.try_split]
        rw [hmid]
      rw [he]
      refine ⟨hperm, hlen', ⟨m, by omega, by omega, ⟨rfl, rfl, by omega⟩,
        ⟨rfl, rfl, by omega⟩⟩, ?_⟩
      intro ⟨j, hj1, hj2, hjP⟩
      have hw := htransfer (fun a => F.lt (a.center.idx axis) pos = true)
        ⟨j, hj1, by omega, hjP⟩
      obtain ⟨j', hj'1, hj'2, hj'P⟩ := hw
      have hj'm : j' < m := by
        by_contra hge
        have hgt := hreg j' (by omega) hj'2
        rw [F.lt_asymm _ _ hj'P] at hgt
        exact Bool.noConfusion hgt
      exact ⟨m, by omega, by omega, ⟨rfl, rfl, by omega⟩, ⟨rfl, rfl, by omega⟩⟩

/-- Under the finiteness guard, the chosen axis has a candidate position
with at least one triangle center strictly below it. -/
theorem guard_witness (bmin bmax : Vec3) (data : BvhLeaf)
    (aux : List BvhTriAux) (axis : ℕ)
    (hfin : F.isFinite (F.add ((Bvh.leaf bmin bmax data).eval_axis aux axis).2.1
      ((Bvh.leaf bmin bmax data).eval_axis aux axis).2.2) = true) :
    ∃ j, data.tbegin ≤ j ∧ j < data.tend ∧
      F.lt ((aux.getD j dAux).center.idx axis)
        ((Bvh.leaf bmin bmax data).eval_axis aux axis).1 = true := by
  rcases eval_axis_cases bmin bmax data aux axis with hcase | ⟨pt, _, hcase⟩
  · rw [hcase] at hfin
    rw [init_sum_not_finite] at hfin
    exact Bool.noConfusion hfin
  · rw [hcase] at hfin ⊢
    have hc0 := (finite_add _ _ hfin).1
    obtain ⟨a, ha, haP⟩ := eval_sah_finite_witness _ axis pt hc0
    obtain ⟨j, hj1, hj2, hjeq⟩ := sliceSeg_mem_pos aux data.tbegin data.tend a ha
    exact ⟨j, hj1, hj2, by rw [hjeq]; exact haP⟩

theorem choose_split_spec (bmin bmax : Vec3) (data : BvhLeaf) (tris : List Tri)
    (aux : List BvhTriAux) (hbe : data.tbegin ≤ data.tend)
    (hlen : data.tend ≤ aux.length) :
    (((Bvh.leaf bmin bmax data).choose_split tris aux).2.1).Perm tris ∧
    ((Bvh.leaf bmin bmax data).choose_split tris aux).2.2.1.length = aux.length ∧
    spansStrict ((Bvh.leaf bmin bmax data).choose_split tris aux).1
      data.tbegin data.tend := by
  simp only [Bvh.choose_split]
  split
  next h1 =>
      have hfin : F.isFinite (F.add ((Bvh.leaf bmin bmax data).eval_axis aux 0).2.1
          ((Bvh.leaf bmin bmax data).eval_axis aux 0).2.2) = true := by
        rcases Bool.and_eq_true _ _ |>.mp h1 with ⟨h, -⟩
        exact (Bool.and_eq_true _ _ |>.mp h).1
      obtain ⟨hp, hl, -, hstrict⟩ := try_split_spec bmin bmax data tris aux 0
        ((Bvh.leaf bmin bmax data).eval_axis aux 0).1
        (((Bvh.leaf bmin bmax data).eval_axis aux 0).2.1,
         ((Bvh.leaf bmin bmax data).eval_axis aux 0).2.2) hbe hlen
      exact ⟨hp, hl, hstrict (guard_witness bmin bmax data aux 0 hfin)⟩
  next =>
    split
    next h2 =>
        have hfin : F.isFinite (F.add ((Bvh.leaf bmin bmax data).eval_axis aux 1).2.1
            ((Bvh.leaf bmin bmax data).eval_axis aux 1).2.2) = true :=
          (Bool.and_eq_true _ _ |>.mp h2).1
        obtain ⟨hp, hl, -, hstrict⟩ := try_split_spec bmin bmax data tris aux 1
          ((Bvh.leaf bmin bmax data).eval_axis aux 1).1
          (((Bvh.leaf bmin bmax data).eval_axis aux 1).2.1,
           ((Bvh.leaf bmin bmax data).eval_axis aux 1).2.2) hbe hlen
        exact ⟨hp, hl, hstrict (guard_witness bmin bmax data aux 1 hfin)⟩
    next =>
      split
      next h3 =>
          obtain ⟨hp, hl, -, hstrict⟩ := try_split_spec bmin bmax data tris aux 2
            ((Bvh.leaf bmin bmax data).eval_axis aux 2).1
            (((Bvh.leaf bmin bmax data).eval_axis aux 2).2.1,
             ((Bvh.leaf bmin bmax data).eval_axis aux 2).2.2) hbe hlen
          exact ⟨hp, hl, hstrict (guard_witness bmin bmax data aux 2 h3)⟩
      next => exact ⟨List.Perm.refl _, rfl, rfl, rfl, hbe⟩

theorem build_impl_spec :
    ∀ (fuel : ℕ) (self : Bvh) (tris : List Tri) (aux : List BvhTriAux) (b e : ℕ),
      spansStrict self b e → e ≤ aux.length →
      ((Bvh.build_impl fuel self tris aux).2.1).Perm tris ∧
      (Bvh.build_impl fuel self tris aux).2.2.length = aux.length ∧
      spansStrict (Bvh.build_impl fuel self tris aux).1 b e
  | fuel, .node bmin bmax l r, tris, aux, b, e, hs, _ => by
      have heq : Bvh.build_impl fuel (.node bmin bmax l r) tris aux =
          (.node bmin bmax l r, tris, aux) := by
        cases fuel <;> rfl
      rw [heq]
      exact ⟨List.Perm.refl _, rfl, hs⟩
  | 0, .leaf bmin bmax data, tris, aux, b, e, hs, _ => ⟨List.Perm.refl _, rfl, hs⟩
  | fuel + 1, .leaf bmin bmax data, tris, aux, b, e, hs, hlen => by
      obtain ⟨hb, he, hbe⟩ := hs
      by_cases hsmall : data.tend - data.tbegin ≤ 2 * MIN_TRI
      · have heq : Bvh.build_impl (fuel + 1) (.leaf bmin bmax data) tris aux =
            (.leaf bmin bmax data, tris, aux) := by
          simp only [Bvh.build_impl]
          rw [if_pos hsmall]
        rw [heq]
        exact ⟨List.Perm.refl _, rfl, hb, he, hbe⟩
      · have heq : Bvh.build_impl (fuel + 1) (.leaf bmin bmax data) tris aux =
            (match (Bvh.leaf bmin bmax data).choose_split tris aux with
             | (.node nmin nmax l r, tris2, aux2, _) =>
                 let L := Bvh.build_impl fuel l tris2 aux2
                 let R := Bvh.build_impl fuel r L.2.1 L.2.2
                 (.node nmin nmax L.1 R.1, R.2.1, R.2.2)
             | (lf, tris2, aux2, _) => (lf, tris2, aux2)) := by
          simp only [Bvh.build_impl]
          rw [if_neg hsmall]
        obtain ⟨hp, hl, hstrict⟩ := choose_split_spec bmin bmax data tris aux
          (by omega) (by omega)
        rcases hch : (Bvh.leaf bmin bmax data).choose_split tris aux with
          ⟨sb, st2, sa2, sbool⟩
        rw [hch] at hp hl hstrict
        cases sb with
        | leaf lmin lmax lf =>
            have heq2 : Bvh.build_impl (fuel + 1) (.leaf bmin bmax data) tris aux =
                (.leaf lmin lmax lf, st2, sa2) := by
              rw [heq, hch]
            rw [heq2]
            refine ⟨hp, hl, ?_⟩
            rw [hb, he] at hstrict
            exact hstrict
        | node nmin nmax nl nr =>
            obtain ⟨mm, hmm1, hmm2, hsl, hsr⟩ := hstrict
            have hl' : sa2.length = aux.length := hl
            obtain ⟨hpL, hlL, hsL⟩ := build_impl_spec fuel nl st2 sa2 data.tbegin mm
              hsl (by omega)
            obtain ⟨hpR, hlR, hsR⟩ := build_impl_spec fuel nr
              (Bvh.build_impl fuel nl st2 sa2).2.1
              (Bvh.build_impl fuel nl st2 sa2).2.2 mm data.tend hsr (by omega)
            have heq2 : Bvh.build_impl (fuel + 1) (.leaf bmin bmax data) tris aux =
                (.node nmin nmax (Bvh.build_impl fuel nl st2 sa2).1
                  (Bvh.build_impl fuel nr (Bvh.build_impl fuel nl st2 sa2).2.1
                    (Bvh.build_impl fuel nl st2 sa2).2.2).1,
                 (Bvh.build_impl fuel nr (Bvh.build_impl fuel nl st2 sa2).2.1
                    (Bvh.build_impl fuel nl st2 sa2).2.2).2.1,
                 (Bvh.build_impl fuel nr (Bvh.build_impl fuel nl st2 sa2).2.1
                    (Bvh.build_impl fuel nl st2 sa2).2.2).2.2) := by
              rw [heq, hch]
            rw [heq2]
            refine ⟨(hpR.trans hpL).trans hp, by rw [hlR, hlL]; exact hl', ?_⟩
            rw [hb] at hsL
            rw [he] at hsR
            exact ⟨mm, by omega, by omega, hsL, hsR⟩

/-- `Bvh::build` permutes the triangles and produces a strictly spanning
hierarchy over `[0, tris.len())`. -/
theorem build_spec (mesh : Mesh) :
    ((Bvh.build mesh).2).Perm mesh.tris ∧
    spansStrict (Bvh.build mesh).1 0 mesh.tris.length := by
  have hauxlen : (Bvh.buildAux mesh).length = mesh.tris.length := by
    unfold Bvh.buildAux
    exact List.length_map _ _
  obtain ⟨hp, -, hs⟩ := build_impl_spec MAX_DEPTH
    (.leaf ((Bvh.buildAux mesh).foldl (fun a f => a.minV f.min) Vec3.MAXC)
      ((Bvh.buildAux mesh).foldl (fun a f => a.maxV f.min) Vec3.MINC)
      ⟨0, mesh.tris.length, Bvh.eval_sah (Bvh.buildAux mesh) 0 (F.fin fMAXQ) true⟩)
    mesh.tris (Bvh.buildAux mesh) 0 mesh.tris.length
    ⟨rfl, rfl, Nat.zero_le _⟩ (by omega)
  exact ⟨hp, hs⟩


/-- C6: `Bvh::build` permutes `mesh.tris` in place — the output triangle
array is a permutation of the input, nothing duplicated or dropped — and
the resulting BVH spans `[0, tris.len())` with every interior node's
children partitioning its range into contiguous non-overlapping parts
(`spans`), so the leaf ranges tile `[0, tris.len())` contiguously and
disjointly, each index covered exactly once (`tiles`). -/
theorem claim_C6_coverage (mesh : Mesh) :
    ((Bvh.build mesh).2).Perm mesh.tris ∧
    spans (Bvh.build mesh).1 0 mesh.tris.length ∧
    tiles 0 (leafRanges (Bvh.build mesh).1) mesh.tris.length := by
  obtain ⟨hp, hs⟩ := build_spec mesh
  have hspans := spansStrict_spans _ 0 _ hs
  exact ⟨hp, hspans, spans_tiles _ 0 mesh.tris.length hspans⟩

/-- C7: `Bvh::build` never produces a split with an empty child — every
interior node of the built BVH covers a range split strictly between its
two children (both non-empty) — and when no triangle of the range lies
strictly beyond the split plane, `try_split` fails and leaves the leaf (and
the arrays) unchanged, returning false. -/
theorem claim_C7_no_empty_split :
    (∀ mesh : Mesh, spansStrict (Bvh.build mesh).1 0 mesh.tris.length) ∧
    (∀ (bmin bmax : Vec3) (data : BvhLeaf) (tris : List Tri) (aux : List BvhTriAux)
        (axis : ℕ) (pos : F) (cost : F × F),
      (∀ j, data.tbegin ≤ j → j < data.tend →
        F.lt pos ((aux.getD j dAux).center.idx axis) = false) →
      Bvh.try_split (.leaf bmin bmax data) tris aux axis pos cost =
        (.leaf bmin bmax data, tris, aux, false)) := by
  constructor
  · intro mesh
    exact (build_spec mesh).2
  · intro bmin bmax data tris aux axis pos cost hall
    have hfold : split_loop axis pos tris aux data.tbegin data.tend =
        (tris, aux, none) := by
      have := split_fold_fail axis pos (data.tend - data.tbegin) data.tbegin
        (tris, aux, none) rfl
        (fun j h1 h2 => hall j h1 (by omega))
      exact this
    simp only [Bvh.try_split]
    rw [hfold]

/-- Witness for C7: the failure clause applied at a concrete empty range,
together with the strict-span statement at the one-triangle mesh. -/
theorem claim_C7_witness :
    spansStrict (Bvh.build exMesh1).1 0 exMesh1.tris.length ∧
    Bvh.try_split (.leaf Vec3.zero Vec3.zero ⟨0, 0, .fin Q.zero⟩) [] [] 0
        (F.fin Q.zero) (F.fin Q.zero, F.fin Q.zero) =
      (.leaf Vec3.zero Vec3.zero ⟨0, 0, .fin Q.zero⟩, [], [], false) :=
  ⟨claim_C7_no_empty_split.1 exMesh1,
   claim_C7_no_empty_split.2 Vec3.zero Vec3.zero ⟨0, 0, .fin Q.zero⟩ [] [] 0
     (F.fin Q.zero) (F.fin Q.zero, F.fin Q.zero) (by intro j h1 h2; simp at h2)⟩


end VlkRt
